import Mathlib

/-!
Verification of the beacon-vector-file aggregation engine against its
natural-language specification.

The development is a shallow embedding of `src/hdf5_storage.py`,
`src/output_processor.py` and `src/models.py`.  The HDF5 file used as the
scratch store is modelled as a two-level association structure that mirrors
exactly the operations the code performs on it:

* `h5py.Group.__setitem__` (`group[name] = value`) creates a *new* dataset
  link and fails when a link with that name already exists (h5py raises
  "Unable to create link (name already exists)"); it never overwrites.
  This is modelled by `hdf5CreateDataset`, which returns `none` on an
  existing key.
* `group.attrs[name] = value` overwrites an existing attribute, modelled by
  plain record update.
* `del group[name]` removes a link; `del local_variable` only unbinds a
  Python local and leaves the file untouched.

Signal values (`dbm_ant`, a Python float) are only ever stored and copied,
never computed with, so they are represented by `Int`; the default sentinel
in `constants.py` is the integer `-135`.  Antenna ids are stored in the HDF5
file under the key `str(ant_id)` and looked up under `str(expected_ant_id)`;
since `str` is injective on integers the inner map is keyed directly by the
antenna id.
-/

namespace BeaconVectorFile

/-- `src/models.py`, `JSONDocumentModel`: one validated input reading
(`BeaconId`, `ant_id`, `dbm_ant`, `timestamp`). -/
structure JSONDocumentModel where
  beacon_id : Int
  ant_id : Int
  dbm_ant : Int
  timestamp : String
deriving DecidableEq

/-- The configuration handed to `HDF5Storage.__init__`:
`expected_antenna_ids` and `default_dbm_ant_value`
(`constants.ANTENNA_IDS` and `constants.DEFAULT_DBM_ANT_VALUE` in the
shipped program). -/
structure Config where
  expectedAntennaIds : List Int
  defaultDbmAntValue : Int
deriving DecidableEq

/-- `constants.ANTENNA_IDS`. -/
def ANTENNA_IDS : List Int := [201, 202, 203, 204, 205, 206]

/-- `constants.DEFAULT_DBM_ANT_VALUE`. -/
def DEFAULT_DBM_ANT_VALUE : Int := -135

/-- The configuration the shipped program runs with (`src/main.py`). -/
def shippedConfig : Config := ⟨ANTENNA_IDS, DEFAULT_DBM_ANT_VALUE⟩

/-- First-match lookup in an association list (h5py `group.get(name)`). -/
def alookup {κ β : Type} [DecidableEq κ] (k : κ) : List (κ × β) → Option β
  | [] => none
  | (k', v) :: rest => if k = k' then some v else alookup k rest

/-- Removal of a link (`del group[name]`).  Keys are unique in every
reachable store, so removing every match coincides with h5py's single-link
removal. -/
def aremove {κ β : Type} [DecidableEq κ] (k : κ) : List (κ × β) → List (κ × β)
  | [] => []
  | (k', v) :: rest => if k = k' then aremove k rest else (k', v) :: aremove k rest

/-- `group[name] = value` in h5py: creates a dataset link, failing (raising)
when the name already exists.  `none` models the raised exception. -/
def hdf5CreateDataset (m : List (Int × Int)) (k v : Int) : Option (List (Int × Int)) :=
  match alookup k m with
  | some _ => none
  | none => some (m ++ [(k, v)])

/-- The `antenna_id_dbm_map` sub-group of one beacon group: its dataset
links (antenna id ↦ dbm value, in creation order) and the
`sampled_antennas_count` attribute (absent until first written). -/
structure HAntennaIdDbmGroup where
  dbmMap : List (Int × Int)
  sampledAntennasCount : Option Nat
deriving DecidableEq

/-- One beacon group.  The `antenna_id_dbm_map` sub-group is `Option`al so
that the code's warning branches for a missing sub-group are representable. -/
structure HBeaconGroup where
  antennaIdDbmMap : Option HAntennaIdDbmGroup
deriving DecidableEq

/-- The `beacons` group of the HDF5 scratch file: beacon key ↦ beacon group,
in creation order.  This flat view treats each beacon key as a single HDF5
link name, which is faithful exactly when the key contains no `/`: HDF5
resolves `/` in a name as a path separator, making create/get/iterate/del
hierarchical.  The path-aware behavior is modelled separately by
`HBeaconTree` below; on slash-free keys the two coincide
(`processJsonRecordH_single_sim`). -/
abbrev BeaconsGroup := List (String × HBeaconGroup)

/-- One record of the output JSON array. -/
structure OutputRecord where
  beacon : String
  vector : List Int
deriving DecidableEq

/-- `_process_json_record`: `beacon_key = f"{json_record.beacon_id}, {json_record.timestamp}"`. -/
def beaconKeyOf (r : JSONDocumentModel) : String :=
  toString r.beacon_id ++ ", " ++ r.timestamp

/-- `HDF5Storage._build_results_record`: for each expected antenna id, use
the dataset stored in the sub-group if present; otherwise fall back to the
just-arrived record when its `ant_id` matches; otherwise the default value.
Note the stored dataset takes priority over the `json_record` override. -/
def buildResultsRecord (cfg : Config) (g : HAntennaIdDbmGroup) (beaconKey : String)
    (jsonRecord : Option JSONDocumentModel) : OutputRecord :=
  { beacon := beaconKey
    vector := cfg.expectedAntennaIds.map (fun expectedAntId =>
      match alookup expectedAntId g.dbmMap with
      | none =>
        match jsonRecord with
        | some r => if expectedAntId = r.ant_id then r.dbm_ant else cfg.defaultDbmAntValue
        | none => cfg.defaultDbmAntValue
      | some dbmAnt => dbmAnt) }

/-- `HDF5Storage._persist_antenna_id_and_dbm_value_in_hdf5`: store the
`(ant_id, dbm_ant)` pair as a new dataset link, then set the
`sampled_antennas_count` attribute to `already_sampled_antennas_count + 1`.
`none` models the h5py exception on a duplicate dataset name (the attribute
is then not written, as the exception is raised first). -/
def persistAntennaIdAndDbmValueInHdf5 (g : HAntennaIdDbmGroup)
    (jsonRecord : JSONDocumentModel) (alreadySampledAntennasCount : Nat) :
    Option HAntennaIdDbmGroup :=
  (hdf5CreateDataset g.dbmMap jsonRecord.ant_id jsonRecord.dbm_ant).map
    (fun m => ⟨m, some (alreadySampledAntennasCount + 1)⟩)

/-- The mutable state of one run: the `beacons` group of the scratch file
and the records emitted to the output sink so far, in emission order. -/
structure EngineState where
  beacons : BeaconsGroup
  outputs : List OutputRecord
deriving DecidableEq

/-- Replaces the `antenna_id_dbm_map` sub-group of the beacon group named
`key` (in the code the sub-group object is mutated in place through the
h5py reference). -/
def setAntennaGroup (key : String) (g' : HAntennaIdDbmGroup) :
    BeaconsGroup → BeaconsGroup
  | [] => []
  | (k, bg) :: rest =>
    if key = k then (k, ⟨some g'⟩) :: rest else (k, bg) :: setAntennaGroup key g' rest

/-- Outcome of processing one parsed record. `warned` is the
missing-sub-group warning branch (run continues, store untouched);
`failed` is an uncaught storage exception (the run aborts). -/
inductive StepResult
  | ok (s : EngineState)
  | warned (s : EngineState)
  | failed
deriving DecidableEq

/-- `HDF5Storage._process_antennas_samples_statistics` acting on the beacon
group named `key` whose sub-group is `g`: read the count attribute
(`attrs.get(...) or 0`); if `count + 1` equals the number of expected
antenna ids, emit the built record (with the current record as override)
and delete the beacon group; otherwise persist the new pair. -/
def processAntennasSamplesStatistics (cfg : Config) (s : EngineState) (key : String)
    (g : HAntennaIdDbmGroup) (jsonRecord : JSONDocumentModel) : Option EngineState :=
  let alreadySampledAntennasCount := g.sampledAntennasCount.getD 0
  if alreadySampledAntennasCount + 1 = cfg.expectedAntennaIds.length then
    some { beacons := aremove key s.beacons
           outputs := s.outputs ++ [buildResultsRecord cfg g key (some jsonRecord)] }
  else
    match persistAntennaIdAndDbmValueInHdf5 g jsonRecord alreadySampledAntennasCount with
    | none => none
    | some g' => some { beacons := setAntennaGroup key g' s.beacons
                        outputs := s.outputs }

/-- `HDF5Storage._process_json_record`: look the beacon key up; on a hit,
process through the statistics path when the `antenna_id_dbm_map` sub-group
exists and take the warning branch otherwise; on a miss, create the beacon
group and its sub-group and persist the first pair (no completion check).
Flat view, faithful for slash-free beacon keys; `processJsonRecordH` below
models the hierarchical behavior of `/`-containing keys (where
`create_group` also creates intermediate groups lacking the sub-group). -/
def processJsonRecord (cfg : Config) (s : EngineState)
    (jsonRecord : JSONDocumentModel) : StepResult :=
  let key := beaconKeyOf jsonRecord
  match alookup key s.beacons with
  | some bg =>
    match bg.antennaIdDbmMap with
    | some g =>
      match processAntennasSamplesStatistics cfg s key g jsonRecord with
      | some s' => .ok s'
      | none => .failed
    | none => .warned s
  | none =>
    match persistAntennaIdAndDbmValueInHdf5 ⟨[], none⟩ jsonRecord 0 with
    | some g' => .ok { beacons := s.beacons ++ [(key, ⟨some g'⟩)]
                       outputs := s.outputs }
    | none => .failed

/-- Result of running a sequence of records: final state or abort, together
with whether any warning branch was ever taken. -/
inductive RunResult
  | ok (s : EngineState) (warned : Bool)
  | failed (warned : Bool)
deriving DecidableEq

/-- The record-processing loop of `parse_json_documents_from_file`,
restricted to already-parsed records: process each record in order; a
warning branch lets the run continue; an uncaught storage exception aborts
it. -/
def runRecordsFrom (cfg : Config) (s : EngineState) (w : Bool) :
    List JSONDocumentModel → RunResult
  | [] => .ok s w
  | r :: rest =>
    match processJsonRecord cfg s r with
    | .ok s' => runRecordsFrom cfg s' w rest
    | .warned s' => runRecordsFrom cfg s' true rest
    | .failed => .failed w

/-- The engine state at the start of a run: empty `beacons` group, nothing
emitted. -/
def initialEngineState : EngineState := ⟨[], []⟩

/-- Helper for `persistBeaconsVectorsToResultsFile`: iterate the beacon
groups; a group missing its `antenna_id_dbm_map` sub-group is skipped with
a warning (flag `true`), otherwise its record (no override) is emitted.
Flat view of the source's iteration over the direct children of the
`beacons` group; `persistBeaconsVectorsAuxH` below is the same iteration
over the path-aware store, where groups nested under `/`-containing keys
are never visited. -/
def persistBeaconsVectorsAux (cfg : Config) :
    List (String × HBeaconGroup) → List OutputRecord × Bool
  | [] => ([], false)
  | (k, bg) :: rest =>
    let tail := persistBeaconsVectorsAux cfg rest
    match bg.antennaIdDbmMap with
    | none => (tail.1, true)
    | some g => (buildResultsRecord cfg g k none :: tail.1, tail.2)

/-- `HDF5Storage.persist_beacons_vectors_to_results_file` (the residual
flush): emits one record per remaining beacon group.  The final
`del hdf5_beacon_group` only unbinds a Python local variable, so the
`beacons` group itself is left unchanged. -/
def persistBeaconsVectorsToResultsFile (cfg : Config) (s : EngineState) :
    EngineState × Bool :=
  let flushed := persistBeaconsVectorsAux cfg s.beacons
  (⟨s.beacons, s.outputs ++ flushed.1⟩, flushed.2)

/-- `os.linesep` on the target platform (Linux), as a character list. -/
def LINESEP : List Char := ['\n']

/-- The opening curly brace character searched for by the line parser. -/
def openBraceChar : Char := Char.ofNat 123

/-- The closing curly brace character searched for by the line parser. -/
def closeBraceChar : Char := Char.ofNat 125

/-- The characters removed by Python's `str.strip()`: those for which
`str.isspace()` holds — the ASCII whitespace `\t\n\v\f\r` and space, the
file/group/record/unit separators 0x1c-0x1f, next-line 0x85, no-break
space 0xa0, Ogham space 0x1680, the Unicode space separators
0x2000-0x200a, line/paragraph separators 0x2028/0x2029, narrow no-break
space 0x202f, medium mathematical space 0x205f, and ideographic space
0x3000. -/
def isPySpace (c : Char) : Bool :=
  c = ' ' ∨ c = '\t' ∨ c = '\n' ∨ c = '\r' ∨ c = Char.ofNat 11 ∨ c = Char.ofNat 12 ∨
  (28 ≤ c.toNat ∧ c.toNat ≤ 31) ∨ c = Char.ofNat 133 ∨ c = Char.ofNat 160 ∨
  c = Char.ofNat 0x1680 ∨ (0x2000 ≤ c.toNat ∧ c.toNat ≤ 0x200a) ∨
  c = Char.ofNat 0x2028 ∨ c = Char.ofNat 0x2029 ∨ c = Char.ofNat 0x202f ∨
  c = Char.ofNat 0x205f ∨ c = Char.ofNat 0x3000

/-- `line.strip()`. -/
def stripChars (l : List Char) : List Char :=
  ((l.dropWhile isPySpace).reverse.dropWhile isPySpace).reverse

/-- `line.index(c)`: position of the first occurrence, `none` when absent
(in Python a `ValueError` that the caller catches). -/
def firstIndexOf (c : Char) : List Char → Option Nat
  | [] => none
  | x :: rest => if x = c then some 0 else (firstIndexOf c rest).map (· + 1)

/-- `line.rindex(c)`: position of the last occurrence, `none` when absent. -/
def lastIndexOf (c : Char) : List Char → Option Nat
  | [] => none
  | x :: rest =>
    match lastIndexOf c rest with
    | some i => some (i + 1)
    | none => if x = c then some 0 else none

/-- What the per-line branching of `parse_json_documents_from_file` does
with one raw line.  The `skipped` outcomes all log a warning and continue
with the next line; `endSentinel` breaks out of the loop. -/
inductive LineOutcome
  | blankSkipped
  | endSentinel
  | startSentinel
  | malformedSkipped
  | invalidDocSkipped
  | doc (r : JSONDocumentModel)
deriving DecidableEq

/-- The per-line branching of `parse_json_documents_from_file` combined with
`parse_text_line`.  `dec` stands for `json.loads` followed by
`JSONDocumentModel(**data)`: it returns `none` exactly when deserialization
(`json.JSONDecodeError`) or schema validation (`pydantic.ValidationError`)
fails, both of which the code catches and maps to a skip. -/
def classifyLine (dec : List Char → Option JSONDocumentModel)
    (rawLine : List Char) : LineOutcome :=
  let line := stripChars rawLine
  if line = [] ∨ line = LINESEP then .blankSkipped
  else if line = [']'] ∨ line = ']' :: LINESEP then .endSentinel
  else if line = ['['] ∨ line = '[' :: LINESEP then .startSentinel
  else
    match firstIndexOf openBraceChar line, lastIndexOf closeBraceChar line with
    | some openBraceIdx, some closeBraceIdx =>
      if openBraceIdx ≠ 0 then .malformedSkipped
      else
        match dec (line.take (closeBraceIdx + 1)) with
        | none => .invalidDocSkipped
        | some r => .doc r
    | _, _ => .malformedSkipped

/-- `HDF5Storage.parse_json_documents_from_file`: classify each line in
order; a terminal sentinel stops the loop; every skip outcome continues;
each parsed document is processed by `_process_json_record`. -/
def parseJsonDocumentsFromFile (cfg : Config)
    (dec : List Char → Option JSONDocumentModel) :
    EngineState → Bool → List (List Char) → RunResult
  | s, w, [] => .ok s w
  | s, w, line :: rest =>
    match classifyLine dec line with
    | .endSentinel => .ok s w
    | .doc r =>
      match processJsonRecord cfg s r with
      | .ok s' => parseJsonDocumentsFromFile cfg dec s' w rest
      | .warned s' => parseJsonDocumentsFromFile cfg dec s' true rest
      | .failed => .failed w
    | _ => parseJsonDocumentsFromFile cfg dec s w rest

/-- `os.linesep` as a string (Linux). -/
def LINESEPS : String := "\n"

/-- `src/output_processor.py`, `OutputProcessor`: the output file contents
written so far and the internal emitted-record count. -/
structure OutputProcessorState where
  contents : String
  resultsRecordsCount : Nat
deriving DecidableEq

/-- `OutputProcessor.initialize`: open the file and write `"[" + linesep`. -/
def outputInitialize : OutputProcessorState := ⟨"[" ++ LINESEPS, 0⟩

/-- Stands for `ujson.dump(record, file, indent=4)`: one definite rendering
of a record (no claim depends on the exact rendering, only on when it is
written). -/
def renderRecord (r : OutputRecord) : String :=
  "\x7b\"beacon\": \"" ++ r.beacon ++ "\", \"vector\": " ++ toString r.vector ++ "\x7d"

/-- `OutputProcessor.persist_record`: a separating comma line before every
record after the first, then the serialized record; the count increments. -/
def outputPersistRecord (st : OutputProcessorState) (r : OutputRecord) :
    OutputProcessorState :=
  ⟨st.contents ++ (if 0 < st.resultsRecordsCount then "," ++ LINESEPS else "")
      ++ renderRecord r,
   st.resultsRecordsCount + 1⟩

/-- `OutputProcessor.close`: write `linesep + "]" + linesep` and close. -/
def outputClose (st : OutputProcessorState) : OutputProcessorState :=
  ⟨st.contents ++ LINESEPS ++ "]" ++ LINESEPS, st.resultsRecordsCount⟩

/-- The output file contents produced by emitting `records` in order
between `initialize` and `close` (the sink is a single append-only writer,
so the file contents are determined by the emission sequence). -/
def outputFileContents (records : List OutputRecord) : String :=
  (outputClose (records.foldl outputPersistRecord outputInitialize)).contents

/-- `src/main.py`: initialize the sink, run the parse loop, then (when no
storage exception aborted the run) the residual flush, and close the sink
on the way out of the context manager.  `none` models an aborted run. -/
def runProgram (cfg : Config) (dec : List Char → Option JSONDocumentModel)
    (lines : List (List Char)) :
    Option (List OutputRecord × BeaconsGroup × String) :=
  match parseJsonDocumentsFromFile cfg dec initialEngineState false lines with
  | .ok s _ =>
    let flushed := (persistBeaconsVectorsToResultsFile cfg s).1
    some (flushed.outputs, flushed.beacons, outputFileContents flushed.outputs)
  | .failed _ => none

/-- The Vector Builder exactly as the spec words it (§4.4): for each id in
`expectedIds` in order, the override's value if the override is present and
its antenna id equals the id; else the antenna map's value if present; else
the default value.  Kept separate from `buildResultsRecord` (which follows
the source) so the two can be compared. -/
def specVectorBuild (antennaMap : List (Int × Int)) (expectedIds : List Int)
    (defaultValue : Int) (override : Option JSONDocumentModel) : List Int :=
  expectedIds.map (fun id =>
    match override with
    | some r =>
      if r.ant_id = id then r.dbm_ant else (alookup id antennaMap).getD defaultValue
    | none => (alookup id antennaMap).getD defaultValue)

/-- The slot rule the source actually implements: the antenna map's value
when present; otherwise the override's value when the override is present
and its antenna id equals the slot id; otherwise the default value. -/
def amendedSlot (antennaMap : List (Int × Int)) (defaultValue : Int)
    (override : Option JSONDocumentModel) (id : Int) : Int :=
  match alookup id antennaMap with
  | some v => v
  | none =>
    match override with
    | some r => if r.ant_id = id then r.dbm_ant else defaultValue
    | none => defaultValue

/-- Whether a step emitted at least one record, observed against the number
of records emitted before the step. -/
def stepEmits (res : StepResult) (outputsBefore : Nat) : Bool :=
  match res with
  | .ok s => outputsBefore < s.outputs.length
  | .warned s => outputsBefore < s.outputs.length
  | .failed => false

/-- The group key the engine derives for a `(beaconId, timestamp)` pair. -/
def groupKey (b : Int) (ts : String) : String :=
  toString b ++ ", " ++ ts

/-- The `(ant_id, dbm_ant)` pairs of a reading sequence, in order. -/
def pairsOf (rs : List JSONDocumentModel) : List (Int × Int) :=
  rs.map (fun r => (r.ant_id, r.dbm_ant))

/-- The signal value of the first reading in `rs` carrying antenna id `id`,
or the default value when none does. -/
def readingValueIn (rs : List JSONDocumentModel) (d : Int) (id : Int) : Int :=
  match rs.find? (fun r => r.ant_id = id) with
  | some r => r.dbm_ant
  | none => d

/-- How many readings of `rs` derive the group key `k`. -/
def keyCount : List JSONDocumentModel → String → Nat
  | [], _ => 0
  | r :: rest, k => (if beaconKeyOf r = k then 1 else 0) + keyCount rest k

/-- The invariant one beacon group satisfies in every reachable store: its
`antenna_id_dbm_map` sub-group exists, the `sampled_antennas_count`
attribute equals the number of dataset links in it, at least one link is
present, and (for an expected set of size at least 2) the count stays below
the expected-set size. -/
def goodGroup (N : Nat) (bg : HBeaconGroup) : Prop :=
  ∃ g, bg.antennaIdDbmMap = some g ∧
    g.sampledAntennasCount = some g.dbmMap.length ∧
    1 ≤ g.dbmMap.length ∧ (2 ≤ N → g.dbmMap.length < N)

/-- Every beacon group in the store is `goodGroup`. -/
def storeInv (N : Nat) (bs : BeaconsGroup) : Prop :=
  ∀ p ∈ bs, goodGroup N p.2

/-- The accounting invariant tying the engine state after processing
`processed` to per-key reading counts: store keys and emitted keys are
duplicate-free; every stored group's count attribute equals the number of
readings seen for its key; a key has been emitted exactly when its reading
count reached the expected-set size (only possible for sizes of at least
two); a key is stored exactly when it has been seen and not emitted. -/
def accounted (N : Nat) (processed : List JSONDocumentModel)
    (s : EngineState) : Prop :=
  (s.beacons.map Prod.fst).Nodup ∧
  (s.outputs.map OutputRecord.beacon).Nodup ∧
  (∀ k bg, alookup k s.beacons = some bg → ∃ g, bg.antennaIdDbmMap = some g ∧
      g.sampledAntennasCount = some (keyCount processed k)) ∧
  (∀ k, k ∈ s.outputs.map OutputRecord.beacon ↔
      (keyCount processed k = N ∧ 2 ≤ N)) ∧
  (∀ k, k ∈ s.beacons.map Prod.fst ↔
      (0 < keyCount processed k ∧ k ∉ s.outputs.map OutputRecord.beacon))

/-- Whether any missing-sub-group warning fired during a run followed (when
the run did not abort) by the residual flush. -/
def warnedAfterFlush (cfg : Config) : RunResult → Bool
  | .ok s w => w || (persistBeaconsVectorsToResultsFile cfg s).2
  | .failed w => w

/-- Helper for `splitPath`: accumulates the current component (reversed)
while scanning for `/`. -/
def splitPathAux (cur : List Char) : List Char → List (List Char)
  | [] => [cur.reverse]
  | c :: rest =>
    if c = '/' then cur.reverse :: splitPathAux [] rest
    else splitPathAux (c :: cur) rest

/-- The `/`-separated components of an HDF5 link name
(`"1, x/y"` → `["1, x", "y"]`; a slash-free name is its own single
component).  HDF5 resolves multi-component names hierarchically, and the
beacon key embeds the timestamp — an arbitrary input string — so a
timestamp containing `/` addresses a nested group.  Components that are
empty or `"."`/`".."` carry further special meaning in HDF5 that this
model does not assign; no statement below involves such names (derived
beacon keys always contain `", "` and the theorems below use either
slash-free keys or plain components). -/
def splitPath (s : String) : List String :=
  (splitPathAux [] s.toList).map String.mk

/-- A group in the beacon namespace of the HDF5 scratch file: its
`antenna_id_dbm_map` payload sub-group when it has been created, and its
child groups, one per link name (a single path component each).  The
`beacons` group itself is the root node (payload `none`). -/
inductive HBeaconTree where
  | node (antennaIdDbmMap : Option HAntennaIdDbmGroup)
      (children : List (String × HBeaconTree))

/-- The `antenna_id_dbm_map` payload of a group node. -/
def HBeaconTree.antennaIdDbmMap : HBeaconTree → Option HAntennaIdDbmGroup
  | .node m _ => m

/-- The child groups of a group node (the direct children h5py iteration
yields). -/
def HBeaconTree.children : HBeaconTree → List (String × HBeaconTree)
  | .node _ cs => cs

/-- `group.get(name)` for a multi-component name: resolve each component in
turn through the child links; `none` when any component is missing. -/
def getPath : HBeaconTree → List String → Option HBeaconTree
  | t, [] => some t
  | t, c :: cs =>
    match alookup c t.children with
    | some t2 => getPath t2 cs
    | none => none

/-- Replaces the subtree linked under `key` (first match; link names are
unique in every reachable tree). -/
def setChild (key : String) (t2 : HBeaconTree) :
    List (String × HBeaconTree) → List (String × HBeaconTree)
  | [] => []
  | (k, t) :: rest =>
    if key = k then (k, t2) :: rest else (k, t) :: setChild key t2 rest

/-- `create_group(name)`: h5py creates missing intermediate groups
implicitly (with no `antenna_id_dbm_map` payload) and fails when the final
component already exists; `none` models that failure (never reached by the
engine, which creates only after a failed lookup). -/
def createGroupPath : HBeaconTree → List String → Option HBeaconTree
  | _, [] => none
  | t, [c] =>
    match alookup c t.children with
    | some _ => none
    | none => some (.node t.antennaIdDbmMap (t.children ++ [(c, .node none [])]))
  | t, c :: c2 :: cs =>
    match alookup c t.children with
    | some t2 =>
      (createGroupPath t2 (c2 :: cs)).map
        (fun t3 => .node t.antennaIdDbmMap (setChild c t3 t.children))
    | none =>
      (createGroupPath (.node none []) (c2 :: cs)).map
        (fun t3 => .node t.antennaIdDbmMap (t.children ++ [(c, t3)]))

/-- Creation of the `antenna_id_dbm_map` sub-group and the in-place
updates the code performs on it through the held h5py reference: set the
payload of the group at the given path.  `none` when the path does not
resolve (unreachable in the engine, which only updates groups it just
looked up or created). -/
def updateSubAtPath : HBeaconTree → List String → HAntennaIdDbmGroup →
    Option HBeaconTree
  | t, [], g => some (.node (some g) t.children)
  | t, c :: cs, g =>
    match alookup c t.children with
    | some t2 =>
      (updateSubAtPath t2 cs g).map
        (fun t3 => .node t.antennaIdDbmMap (setChild c t3 t.children))
    | none => none

/-- `del self._hdf5_beacons_group[beacon_key]`: removes the link named by
the final path component from its parent group; intermediate groups
remain.  (A non-resolving path would raise in h5py; the engine only
deletes keys it just looked up, so that case — a no-op here — is
unreachable.)  Link names are unique, so removing every match coincides
with h5py's single-link removal. -/
def delPath : HBeaconTree → List String → HBeaconTree
  | t, [] => t
  | t, [c] => .node t.antennaIdDbmMap (aremove c t.children)
  | t, c :: c2 :: cs =>
    match alookup c t.children with
    | some t2 => .node t.antennaIdDbmMap (setChild c (delPath t2 (c2 :: cs)) t.children)
    | none => t

/-- Engine state over the path-aware store: the `beacons` group as a tree
of groups, plus the records emitted so far. -/
structure HEngineState where
  beaconsRoot : HBeaconTree
  outputs : List OutputRecord

/-- Outcome of one step over the path-aware store (mirrors `StepResult`). -/
inductive StepResultH
  | ok (s : HEngineState)
  | warned (s : HEngineState)
  | failed

/-- `_process_antennas_samples_statistics` over the path-aware store:
identical logic to `processAntennasSamplesStatistics`, with the deletion
and the in-place sub-group update addressed by the key's path. -/
def processAntennasSamplesStatisticsH (cfg : Config) (s : HEngineState)
    (beaconKey : String) (g : HAntennaIdDbmGroup)
    (jsonRecord : JSONDocumentModel) : Option HEngineState :=
  let alreadySampledAntennasCount := g.sampledAntennasCount.getD 0
  if alreadySampledAntennasCount + 1 = cfg.expectedAntennaIds.length then
    some { beaconsRoot := delPath s.beaconsRoot (splitPath beaconKey)
           outputs := s.outputs ++
             [buildResultsRecord cfg g beaconKey (some jsonRecord)] }
  else
    match persistAntennaIdAndDbmValueInHdf5 g jsonRecord
        alreadySampledAntennasCount with
    | none => none
    | some g2 =>
      match updateSubAtPath s.beaconsRoot (splitPath beaconKey) g2 with
      | some t => some { beaconsRoot := t, outputs := s.outputs }
      | none => none

/-- `_process_json_record` over the path-aware store.  The beacon key is
an HDF5 link name, so a `/` in the timestamp makes lookup, creation and
deletion hierarchical: `create_group` then implicitly creates intermediate
groups that have no `antenna_id_dbm_map` sub-group, and a later lookup can
land on such an intermediate, reaching the warning branch. -/
def processJsonRecordH (cfg : Config) (s : HEngineState)
    (jsonRecord : JSONDocumentModel) : StepResultH :=
  let key := beaconKeyOf jsonRecord
  match getPath s.beaconsRoot (splitPath key) with
  | some bt =>
    match bt.antennaIdDbmMap with
    | some g =>
      match processAntennasSamplesStatisticsH cfg s key g jsonRecord with
      | some s2 => .ok s2
      | none => .failed
    | none => .warned s
  | none =>
    match createGroupPath s.beaconsRoot (splitPath key) with
    | some t1 =>
      match persistAntennaIdAndDbmValueInHdf5 ⟨[], none⟩ jsonRecord 0 with
      | some g2 =>
        match updateSubAtPath t1 (splitPath key) g2 with
        | some t2 => .ok { beaconsRoot := t2, outputs := s.outputs }
        | none => .failed
      | none => .failed
    | none => .failed

/-- Result of a run over the path-aware store (mirrors `RunResult`). -/
inductive RunResultH
  | ok (s : HEngineState) (warned : Bool)
  | failed (warned : Bool)

/-- The record-processing loop over the path-aware store. -/
def runRecordsFromH (cfg : Config) (s : HEngineState) (w : Bool) :
    List JSONDocumentModel → RunResultH
  | [] => .ok s w
  | r :: rest =>
    match processJsonRecordH cfg s r with
    | .ok s2 => runRecordsFromH cfg s2 w rest
    | .warned s2 => runRecordsFromH cfg s2 true rest
    | .failed => .failed w

/-- The path-aware engine state at the start of a run: an empty `beacons`
group, nothing emitted. -/
def initialHEngineState : HEngineState := ⟨.node none [], []⟩

/-- The residual-flush iteration over the path-aware store: h5py iteration
yields only the *direct* children of the `beacons` group, so groups nested
under a `/`-containing key are never visited (their keys are omitted from
the output), while an intermediate group without the sub-group takes the
warning branch. -/
def persistBeaconsVectorsAuxH (cfg : Config) :
    List (String × HBeaconTree) → List OutputRecord × Bool
  | [] => ([], false)
  | (k, bt) :: rest =>
    let tail := persistBeaconsVectorsAuxH cfg rest
    match bt.antennaIdDbmMap with
    | none => (tail.1, true)
    | some g => (buildResultsRecord cfg g k none :: tail.1, tail.2)

/-- `persist_beacons_vectors_to_results_file` over the path-aware store
(the store itself again survives, as `del` only unbinds a local). -/
def persistBeaconsVectorsToResultsFileH (cfg : Config) (s : HEngineState) :
    HEngineState × Bool :=
  let flushed := persistBeaconsVectorsAuxH cfg s.beaconsRoot.children
  (⟨s.beaconsRoot, s.outputs ++ flushed.1⟩, flushed.2)

/-- Whether any missing-sub-group warning fired during a path-aware run
followed (when the run did not abort) by the residual flush. -/
def warnedAfterFlushH (cfg : Config) : RunResultH → Bool
  | .ok s w => w || (persistBeaconsVectorsToResultsFileH cfg s).2
  | .failed w => w

/-- The flat view of the direct children of the `beacons` group: each
child's key with its (possibly absent) `antenna_id_dbm_map` payload,
forgetting nested children.  On slash-free keys every engine operation
acts only on direct children and their payloads, so this view is a
faithful abstraction there. -/
def flatOfChildren (cs : List (String × HBeaconTree)) : BeaconsGroup :=
  cs.map (fun p => (p.1, ⟨p.2.antennaIdDbmMap⟩))

/-- The flat engine state corresponding to a path-aware one. -/
def flatStateOf (s : HEngineState) : EngineState :=
  ⟨flatOfChildren s.beaconsRoot.children, s.outputs⟩

/-- C2: the Vector Builder prefers the antenna map over the override: at a
slot id present in the map and equal to the override's antenna id, the
stored value (10) is output, not the override's value (99) that the claim
and §4.4 of the spec demand. -/
theorem c2_counterexample :
    (buildResultsRecord ⟨[201], -135⟩ ⟨[(201, 10)], some 1⟩ "k"
        (some ⟨1, 201, 99, "T"⟩)).vector = [10] ∧
    specVectorBuild [(201, 10)] [201] (-135) (some ⟨1, 201, 99, "T"⟩) = [99] ∧
    (10 : Int) ≠ 99 := by
  decide

/-- C2 (amended): for every antenna map, expected-id list, default value and
override, the Vector Builder outputs, for each id in the expected list in
order, the map's value whenever the map contains one for that id — even if
the override also matches that id; otherwise the override's value when the
override is present and its antenna id equals the id; otherwise the default
value. -/
theorem c2_vector_builder_map_first (cfg : Config) (g : HAntennaIdDbmGroup)
    (key : String) (override : Option JSONDocumentModel) :
    buildResultsRecord cfg g key override =
      ⟨key, cfg.expectedAntennaIds.map
        (amendedSlot g.dbmMap cfg.defaultDbmAntValue override)⟩ := by
  unfold buildResultsRecord
  have h : (fun expectedAntId =>
      match alookup expectedAntId g.dbmMap with
      | none =>
        match override with
        | some r =>
          if expectedAntId = r.ant_id then r.dbm_ant else cfg.defaultDbmAntValue
        | none => cfg.defaultDbmAntValue
      | some dbmAnt => dbmAnt) =
      amendedSlot g.dbmMap cfg.defaultDbmAntValue override := by
    funext id
    unfold amendedSlot
    cases alookup id g.dbmMap with
    | some v => rfl
    | none =>
      cases override with
      | none => rfl
      | some r =>
        by_cases hid : id = r.ant_id
        · simp [hid]
        · show (if id = r.ant_id then r.dbm_ant else cfg.defaultDbmAntValue) =
            (if r.ant_id = id then r.dbm_ant else cfg.defaultDbmAntValue)
          rw [if_neg hid, if_neg (fun h => hid h.symm)]
  rw [h]

/-- C3: upsert does not always succeed.  With expected set `[201, 202, 203]`
and two readings for the same key and the same antenna id 201, the second
upsert hits an existing dataset link, the h5py write raises, and the run
aborts — instead of overwriting the previously recorded value as the claim
states. -/
theorem c3_counterexample :
    runRecordsFrom ⟨[201, 202, 203], -135⟩ initialEngineState false
      [⟨1, 201, 5, "T"⟩, ⟨1, 201, 6, "T"⟩] = .failed false := by
  decide

/-- C3 (amended): upsert creates a GroupState on the first reading for a key
(recording the value with count 1); on an existing GroupState, away from
the completion branch, it records the value and increments the raw sample
count by one provided no value was previously recorded for that antenna id
in that GroupState; if one was, the write fails (no overwrite) and the run
aborts. -/
theorem c3_upsert_amended :
    (∀ (cfg : Config) (s : EngineState) (r : JSONDocumentModel),
      alookup (beaconKeyOf r) s.beacons = none →
      processJsonRecord cfg s r =
        .ok ⟨s.beacons ++ [(beaconKeyOf r, ⟨some ⟨[(r.ant_id, r.dbm_ant)], some 1⟩⟩)],
             s.outputs⟩) ∧
    (∀ (cfg : Config) (s : EngineState) (r : JSONDocumentModel)
        (bg : HBeaconGroup) (g : HAntennaIdDbmGroup),
      alookup (beaconKeyOf r) s.beacons = some bg →
      bg.antennaIdDbmMap = some g →
      g.sampledAntennasCount.getD 0 + 1 ≠ cfg.expectedAntennaIds.length →
      alookup r.ant_id g.dbmMap = none →
      processJsonRecord cfg s r =
        .ok ⟨setAntennaGroup (beaconKeyOf r)
              ⟨g.dbmMap ++ [(r.ant_id, r.dbm_ant)],
               some (g.sampledAntennasCount.getD 0 + 1)⟩ s.beacons,
             s.outputs⟩) ∧
    (∀ (cfg : Config) (s : EngineState) (r : JSONDocumentModel)
        (bg : HBeaconGroup) (g : HAntennaIdDbmGroup) (v : Int),
      alookup (beaconKeyOf r) s.beacons = some bg →
      bg.antennaIdDbmMap = some g →
      g.sampledAntennasCount.getD 0 + 1 ≠ cfg.expectedAntennaIds.length →
      alookup r.ant_id g.dbmMap = some v →
      processJsonRecord cfg s r = .failed) := by
  refine ⟨?_, ?_, ?_⟩
  · intro cfg s r hnone
    simp [processJsonRecord, hnone, persistAntennaIdAndDbmValueInHdf5,
      hdf5CreateDataset, alookup]
  · intro cfg s r bg g hsome hsub hcount hfresh
    simp [processJsonRecord, hsome, hsub, processAntennasSamplesStatistics,
      hcount, persistAntennaIdAndDbmValueInHdf5, hdf5CreateDataset, hfresh]
  · intro cfg s r bg g v hsome hsub hcount hdup
    simp [processJsonRecord, hsome, hsub, processAntennasSamplesStatistics,
      hcount, persistAntennaIdAndDbmValueInHdf5, hdf5CreateDataset, hdup]

/-- Witness for `c3_upsert_amended` at concrete inputs: a first reading for
a fresh key creates the group; a second reading with a fresh antenna id
extends it; a second reading with the same antenna id aborts. -/
theorem c3_upsert_amended_witness :
    processJsonRecord ⟨[201, 202, 203], -135⟩ initialEngineState ⟨1, 201, 5, "T"⟩ =
      .ok ⟨[("1, T", ⟨some ⟨[(201, 5)], some 1⟩⟩)], []⟩ ∧
    processJsonRecord ⟨[201, 202, 203], -135⟩
        ⟨[("1, T", ⟨some ⟨[(201, 5)], some 1⟩⟩)], []⟩ ⟨1, 202, 7, "T"⟩ =
      .ok ⟨[("1, T", ⟨some ⟨[(201, 5), (202, 7)], some 2⟩⟩)], []⟩ ∧
    processJsonRecord ⟨[201, 202, 203], -135⟩
        ⟨[("1, T", ⟨some ⟨[(201, 5)], some 1⟩⟩)], []⟩ ⟨1, 201, 6, "T"⟩ = .failed := by
  refine ⟨?_, ?_, ?_⟩
  · exact c3_upsert_amended.1 ⟨[201, 202, 203], -135⟩ initialEngineState
      ⟨1, 201, 5, "T"⟩ (by decide)
  · exact c3_upsert_amended.2.1 ⟨[201, 202, 203], -135⟩
      ⟨[("1, T", ⟨some ⟨[(201, 5)], some 1⟩⟩)], []⟩ ⟨1, 202, 7, "T"⟩
      ⟨some ⟨[(201, 5)], some 1⟩⟩ ⟨[(201, 5)], some 1⟩
      (by decide) (by decide) (by decide) (by decide)
  · exact c3_upsert_amended.2.2 ⟨[201, 202, 203], -135⟩
      ⟨[("1, T", ⟨some ⟨[(201, 5)], some 1⟩⟩)], []⟩ ⟨1, 201, 6, "T"⟩
      ⟨some ⟨[(201, 5)], some 1⟩⟩ ⟨[(201, 5)], some 1⟩ 5
      (by decide) (by decide) (by decide) (by decide)

/-- C5 (code bug): after the end-of-stream residual flush, the scratch
store is *not* empty.  With expected set `[201, 202]` and a single reading,
the flush emits the residual record but `del hdf5_beacon_group` only
unbinds a Python local, so the GroupState survives in the store, contrary
to the code's own comment ("Remove the beacon's associated Group ... from
the HDF5 file storage") and to the spec's drain contract. -/
theorem c5_flush_leaves_store :
    runRecordsFrom ⟨[201, 202], -135⟩ initialEngineState false [⟨1, 201, 5, "T"⟩] =
      .ok ⟨[("1, T", ⟨some ⟨[(201, 5)], some 1⟩⟩)], []⟩ false ∧
    persistBeaconsVectorsToResultsFile ⟨[201, 202], -135⟩
        ⟨[("1, T", ⟨some ⟨[(201, 5)], some 1⟩⟩)], []⟩ =
      (⟨[("1, T", ⟨some ⟨[(201, 5)], some 1⟩⟩)], [⟨"1, T", [5, -135]⟩]⟩, false) ∧
    ([("1, T", (⟨some ⟨[(201, 5)], some 1⟩⟩ : HBeaconGroup))] : BeaconsGroup) ≠ [] := by
  decide

/-- C6: the raw sample count is id-agnostic — on an existing GroupState a
step emits (takes the completion branch) exactly when the stored count plus
one equals the expected-set size, whatever the reading's antenna id — and
consequently (a) an input whose first reading carries the out-of-set
antenna id 999 completes after two samples with expected id 202 never
observed and default-filled, and (b) an input with a duplicate reading for
antenna 201 completes after two samples with expected id 202 never observed
and default-filled. -/
theorem c6_count_based_completion :
    (∀ (cfg : Config) (r : JSONDocumentModel) (g : HAntennaIdDbmGroup)
        (rest : BeaconsGroup) (os : List OutputRecord),
      stepEmits (processJsonRecord cfg ⟨(beaconKeyOf r, ⟨some g⟩) :: rest, os⟩ r)
          os.length =
        decide (g.sampledAntennasCount.getD 0 + 1 = cfg.expectedAntennaIds.length)) ∧
    runRecordsFrom ⟨[201, 202], -135⟩ initialEngineState false
        [⟨1, 999, 50, "T"⟩, ⟨1, 201, 60, "T"⟩] =
      .ok ⟨[], [⟨"1, T", [60, -135]⟩]⟩ false ∧
    runRecordsFrom ⟨[201, 202], -135⟩ initialEngineState false
        [⟨1, 201, 10, "T"⟩, ⟨1, 201, 99, "T"⟩] =
      .ok ⟨[], [⟨"1, T", [10, -135]⟩]⟩ false := by
  refine ⟨?_, by decide, by decide⟩
  intro cfg r g rest os
  have halk : alookup (beaconKeyOf r) ((beaconKeyOf r, (⟨some g⟩ : HBeaconGroup)) :: rest)
      = some ⟨some g⟩ := by simp [alookup]
  simp only [processJsonRecord, halk, processAntennasSamplesStatistics]
  by_cases hc : g.sampledAntennasCount.getD 0 + 1 = cfg.expectedAntennaIds.length
  · rw [if_pos hc]
    simp [stepEmits, hc]
  · rw [if_neg hc]
    cases hp : persistAntennaIdAndDbmValueInHdf5 g r (g.sampledAntennasCount.getD 0) with
    | none => simp [stepEmits, hc]
    | some g2 => simp [stepEmits, hc]

/-- An entry found by lookup is a member of the association list. -/
theorem alookup_mem {κ β : Type} [DecidableEq κ] {k : κ} {b : β} :
    ∀ {l : List (κ × β)}, alookup k l = some b → (k, b) ∈ l := by
  intro l
  induction l with
  | nil => intro h; simp [alookup] at h
  | cons q rest ih =>
    obtain ⟨k1, b1⟩ := q
    intro h
    rw [alookup] at h
    by_cases hk : k = k1
    · rw [if_pos hk] at h
      cases h
      rw [hk]
      exact List.mem_cons_self _ _
    · rw [if_neg hk] at h
      exact List.mem_cons_of_mem _ (ih h)

/-- Removal only drops entries: membership after `aremove` implies
membership before. -/
theorem mem_aremove {κ β : Type} [DecidableEq κ] {k : κ} {p : κ × β} :
    ∀ {l : List (κ × β)}, p ∈ aremove k l → p ∈ l := by
  intro l
  induction l with
  | nil => intro h; simp [aremove] at h
  | cons q rest ih =>
    obtain ⟨k1, b1⟩ := q
    intro h
    rw [aremove] at h
    by_cases hk : k = k1
    · rw [if_pos hk] at h
      exact List.mem_cons_of_mem _ (ih h)
    · rw [if_neg hk] at h
      rcases List.mem_cons.mp h with h | h
      · exact h ▸ List.mem_cons_self _ _
      · exact List.mem_cons_of_mem _ (ih h)

/-- An entry of the store after `setAntennaGroup` is either an entry of the
old store or carries the freshly written sub-group. -/
theorem mem_setAntennaGroup {key : String} {g' : HAntennaIdDbmGroup}
    {p : String × HBeaconGroup} :
    ∀ {l : BeaconsGroup}, p ∈ setAntennaGroup key g' l →
      p ∈ l ∨ p.2 = ⟨some g'⟩ := by
  intro l
  induction l with
  | nil => intro h; simp [setAntennaGroup] at h
  | cons q rest ih =>
    obtain ⟨k1, b1⟩ := q
    intro h
    rw [setAntennaGroup] at h
    by_cases hk : key = k1
    · rw [if_pos hk] at h
      rcases List.mem_cons.mp h with h | h
      · exact Or.inr (by rw [h])
      · exact Or.inl (List.mem_cons_of_mem _ h)
    · rw [if_neg hk] at h
      rcases List.mem_cons.mp h with h | h
      · exact Or.inl (h ▸ List.mem_cons_self _ _)
      · rcases ih h with h | h
        · exact Or.inl (List.mem_cons_of_mem _ h)
        · exact Or.inr h

/-- One processing step preserves the store invariant and never reaches the
missing-sub-group warning branch. -/
theorem processJsonRecord_storeInv {cfg : Config} {s : EngineState}
    {r : JSONDocumentModel} (h : storeInv cfg.expectedAntennaIds.length s.beacons) :
    (∀ s', processJsonRecord cfg s r ≠ .warned s') ∧
    (∀ s', processJsonRecord cfg s r = .ok s' →
      storeInv cfg.expectedAntennaIds.length s'.beacons) := by
  cases halk : alookup (beaconKeyOf r) s.beacons with
  | none =>
    have hstep : processJsonRecord cfg s r =
        .ok ⟨s.beacons ++ [(beaconKeyOf r, ⟨some ⟨[(r.ant_id, r.dbm_ant)], some 1⟩⟩)],
             s.outputs⟩ := by
      simp [processJsonRecord, halk, persistAntennaIdAndDbmValueInHdf5,
        hdf5CreateDataset, alookup]
    constructor
    · intro s'
      rw [hstep]
      simp
    · intro s' hok
      rw [hstep] at hok
      cases hok
      intro p hp
      rcases List.mem_append.mp hp with hp | hp
      · exact h p hp
      · rcases List.mem_singleton.mp hp with rfl
        exact ⟨⟨[(r.ant_id, r.dbm_ant)], some 1⟩, rfl, rfl, le_refl 1,
          by intro hN; simp only [List.length_singleton]; omega⟩
  | some bg =>
    rcases h (beaconKeyOf r, bg) (alookup_mem halk) with ⟨g, hsub0, hcnt, hlen, hbound⟩
    have hsub : bg.antennaIdDbmMap = some g := hsub0
    by_cases hc : g.dbmMap.length + 1 = cfg.expectedAntennaIds.length
    · have hstep : processJsonRecord cfg s r =
          .ok ⟨aremove (beaconKeyOf r) s.beacons,
               s.outputs ++ [buildResultsRecord cfg g (beaconKeyOf r) (some r)]⟩ := by
        simp [processJsonRecord, halk, hsub, processAntennasSamplesStatistics, hcnt, hc]
      constructor
      · intro s'
        rw [hstep]
        simp
      · intro s' hok
        rw [hstep] at hok
        cases hok
        intro p hp
        exact h p (mem_aremove hp)
    · cases hcd : hdf5CreateDataset g.dbmMap r.ant_id r.dbm_ant with
      | none =>
        have hstep : processJsonRecord cfg s r = .failed := by
          simp [processJsonRecord, halk, hsub, processAntennasSamplesStatistics, hcnt,
            hc, persistAntennaIdAndDbmValueInHdf5, hcd]
        constructor
        · intro s'
          rw [hstep]
          simp
        · intro s' hok
          rw [hstep] at hok
          cases hok
      | some m =>
        have hm : m = g.dbmMap ++ [(r.ant_id, r.dbm_ant)] := by
          unfold hdf5CreateDataset at hcd
          cases hal : alookup r.ant_id g.dbmMap with
          | none => rw [hal] at hcd; cases hcd; rfl
          | some v => rw [hal] at hcd; cases hcd
        have hstep : processJsonRecord cfg s r =
            .ok ⟨setAntennaGroup (beaconKeyOf r) ⟨m, some (g.dbmMap.length + 1)⟩ s.beacons,
                 s.outputs⟩ := by
          simp [processJsonRecord, halk, hsub, processAntennasSamplesStatistics, hcnt,
            hc, persistAntennaIdAndDbmValueInHdf5, hcd]
        constructor
        · intro s'
          rw [hstep]
          simp
        · intro s' hok
          rw [hstep] at hok
          cases hok
          intro p hp
          rcases mem_setAntennaGroup hp with hp | hp
          · exact h p hp
          · refine ⟨⟨m, some (g.dbmMap.length + 1)⟩, by rw [hp], ?_, ?_, ?_⟩
            · rw [hm]; simp
            · rw [hm]; simp
            · intro hN
              rw [hm]
              simp only [List.length_append, List.length_singleton]
              have := hbound hN
              omega

/-- Running any record sequence from a store satisfying the invariant
keeps it satisfied and never sets the warning flag. -/
theorem runRecordsFrom_storeInv {cfg : Config} :
    ∀ (rs : List JSONDocumentModel) (s : EngineState) (w : Bool),
      storeInv cfg.expectedAntennaIds.length s.beacons →
      (match runRecordsFrom cfg s w rs with
        | .ok s' w' => storeInv cfg.expectedAntennaIds.length s'.beacons ∧ w' = w
        | .failed w' => w' = w) := by
  intro rs
  induction rs with
  | nil => intro s w h; exact ⟨h, rfl⟩
  | cons r rest ih =>
    intro s w h
    rw [runRecordsFrom]
    rcases @processJsonRecord_storeInv cfg s r h with ⟨hnw, hok⟩
    cases hstep : processJsonRecord cfg s r with
    | ok s' => exact ih s' w (hok s' hstep)
    | warned s' => exact absurd hstep (hnw s')
    | failed => rfl

/-- The residual flush never takes its missing-sub-group warning branch on
a store satisfying the invariant. -/
theorem persistBeaconsVectorsAux_no_warn {cfg : Config} :
    ∀ {bs : BeaconsGroup}, storeInv cfg.expectedAntennaIds.length bs →
      (persistBeaconsVectorsAux cfg bs).2 = false := by
  intro bs
  induction bs with
  | nil => intro _; rfl
  | cons p rest ih =>
    intro h
    obtain ⟨k1, bg1⟩ := p
    rcases h (k1, bg1) (List.mem_cons_self _ _) with ⟨g, hsub, -⟩
    have hsub1 : bg1.antennaIdDbmMap = some g := hsub
    rw [persistBeaconsVectorsAux, hsub1]
    exact ih (fun q hq => h q (List.mem_cons_of_mem _ hq))

/-- Lookup distributes over append: the left list wins. -/
theorem alookup_append {κ β : Type} [DecidableEq κ] (k : κ) :
    ∀ (l1 l2 : List (κ × β)), alookup k (l1 ++ l2) =
      match alookup k l1 with
      | some v => some v
      | none => alookup k l2 := by
  intro l1 l2
  induction l1 with
  | nil => rfl
  | cons q rest ih =>
    obtain ⟨k1, b1⟩ := q
    by_cases hk : k = k1
    · simp [alookup, hk]
    · simp only [List.cons_append, alookup, if_neg hk]
      exact ih

/-- Looking an antenna id up among the stored pairs of a reading sequence
finds the first reading with that id. -/
theorem alookup_pairsOf (id : Int) :
    ∀ rs : List JSONDocumentModel, alookup id (pairsOf rs) =
      match rs.find? (fun r => r.ant_id = id) with
      | some r => some r.dbm_ant
      | none => none := by
  intro rs
  induction rs with
  | nil => rfl
  | cons r rest ih =>
    simp only [pairsOf, List.map_cons]
    rw [alookup]
    by_cases h : id = r.ant_id
    · rw [if_pos h, List.find?_cons_of_pos _ (by simp [h])]
    · rw [if_neg h, List.find?_cons_of_neg _ (by simp; exact fun hh => h hh.symm)]
      exact ih

/-- Running an appended record sequence runs the first part, then (when it
did not abort) the second from the resulting state. -/
theorem runRecordsFrom_append (cfg : Config) :
    ∀ (l1 l2 : List JSONDocumentModel) (s : EngineState) (w : Bool),
      runRecordsFrom cfg s w (l1 ++ l2) =
        match runRecordsFrom cfg s w l1 with
        | .ok s' w' => runRecordsFrom cfg s' w' l2
        | .failed w' => .failed w' := by
  intro l1
  induction l1 with
  | nil => intro l2 s w; rfl
  | cons r rest ih =>
    intro l2 s w
    simp only [List.cons_append, runRecordsFrom]
    cases processJsonRecord cfg s r with
    | ok s' => exact ih l2 s' w
    | warned s' => exact ih l2 s' true
    | failed => rfl

/-- Accumulation on a single-key store: processing readings that all carry
the stored key, whose antenna ids are fresh and mutually distinct, and that
are too few to complete the group, extends the stored map pair by pair and
the count in lockstep, emitting nothing. -/
theorem runOneKey_accumulate (cfg : Config) (K : String) :
    ∀ (rs : List JSONDocumentModel) (m : List (Int × Int)) (os : List OutputRecord)
      (w : Bool),
      (∀ r ∈ rs, beaconKeyOf r = K) →
      (∀ r ∈ rs, alookup r.ant_id m = none) →
      (rs.map (fun r => r.ant_id)).Nodup →
      m.length + rs.length < cfg.expectedAntennaIds.length →
      runRecordsFrom cfg ⟨[(K, ⟨some ⟨m, some m.length⟩⟩)], os⟩ w rs =
        .ok ⟨[(K, ⟨some ⟨m ++ pairsOf rs, some (m ++ pairsOf rs).length⟩⟩)], os⟩ w := by
  intro rs
  induction rs with
  | nil =>
    intro m os w _ _ _ _
    simp [pairsOf, runRecordsFrom]
  | cons r rest ih =>
    intro m os w hkey hfresh hnodup hlen
    have hk : beaconKeyOf r = K := hkey r (List.mem_cons_self _ _)
    have hfr : alookup r.ant_id m = none := hfresh r (List.mem_cons_self _ _)
    have hne : m.length + 1 ≠ cfg.expectedAntennaIds.length := by
      simp only [List.length_cons] at hlen
      omega
    have hstep : processJsonRecord cfg ⟨[(K, ⟨some ⟨m, some m.length⟩⟩)], os⟩ r =
        .ok ⟨[(K, ⟨some ⟨m ++ [(r.ant_id, r.dbm_ant)], some (m.length + 1)⟩⟩)], os⟩ := by
      simp [processJsonRecord, hk, alookup, processAntennasSamplesStatistics, hne,
        persistAntennaIdAndDbmValueInHdf5, hdf5CreateDataset, hfr, setAntennaGroup]
    simp only [runRecordsFrom, hstep]
    simp only [List.map_cons, List.nodup_cons] at hnodup
    have h1 : m.length + 1 = (m ++ [(r.ant_id, r.dbm_ant)]).length := by simp
    rw [h1]
    have hreassoc : m ++ pairsOf (r :: rest) = (m ++ [(r.ant_id, r.dbm_ant)]) ++ pairsOf rest := by
      simp [pairsOf]
    rw [hreassoc]
    refine ih (m ++ [(r.ant_id, r.dbm_ant)]) os w
      (fun r' hr' => hkey r' (List.mem_cons_of_mem _ hr')) ?_ hnodup.2 ?_
    · intro r' hr'
      rw [alookup_append, hfresh r' (List.mem_cons_of_mem _ hr')]
      have hne' : r'.ant_id ≠ r.ant_id := by
        intro hcontra
        exact hnodup.1 (hcontra ▸ List.mem_map_of_mem (fun x => x.ant_id) hr')
      simp [alookup, hne']
    · simp only [List.length_cons] at hlen
      simp only [List.length_append, List.length_singleton]
      omega

/-- C1: for a key receiving exactly one reading per expected antenna id
(no duplicate antenna ids, none outside the expected set, any arrival
order; the expected ids are distinct and at least two), the engine emits
exactly one vector, through the completion path, immediately after the
last reading: no proper prefix of the readings emits anything, the full
run emits the single record for the key and leaves the store empty (so
the residual flush adds nothing), the slot at each position equals the
signal value of the unique reading carrying that position's expected id,
and when no reading's value equals the default sentinel no slot equals
the default sentinel. -/
theorem c1_one_reading_per_id_completes (cfg : Config) (b : Int) (ts : String)
    (rs : List JSONDocumentModel)
    (hN : 2 ≤ cfg.expectedAntennaIds.length)
    (hnodup : cfg.expectedAntennaIds.Nodup)
    (hkey : ∀ r ∈ rs, r.beacon_id = b ∧ r.timestamp = ts)
    (hperm : (rs.map (fun r => r.ant_id)).Perm cfg.expectedAntennaIds) :
    runRecordsFrom cfg initialEngineState false rs =
      .ok ⟨[], [⟨groupKey b ts,
        cfg.expectedAntennaIds.map (readingValueIn rs cfg.defaultDbmAntValue)⟩]⟩ false ∧
    (∀ k, k < rs.length →
      ∃ s', runRecordsFrom cfg initialEngineState false (rs.take k) = .ok s' false ∧
        s'.outputs = []) ∧
    ((∀ r ∈ rs, r.dbm_ant ≠ cfg.defaultDbmAntValue) →
      ∀ x ∈ cfg.expectedAntennaIds.map (readingValueIn rs cfg.defaultDbmAntValue),
        x ≠ cfg.defaultDbmAntValue) := by
  have hlen : rs.length = cfg.expectedAntennaIds.length := by
    simpa using hperm.length_eq
  have hthird : (∀ r ∈ rs, r.dbm_ant ≠ cfg.defaultDbmAntValue) →
      ∀ x ∈ cfg.expectedAntennaIds.map (readingValueIn rs cfg.defaultDbmAntValue),
        x ≠ cfg.defaultDbmAntValue := by
    intro hvals x hx
    rcases List.mem_map.mp hx with ⟨id, hid, rfl⟩
    unfold readingValueIn
    cases hf : rs.find? (fun r => r.ant_id = id) with
    | some r => exact hvals r (List.mem_of_find?_eq_some hf)
    | none =>
      exfalso
      have hidin : id ∈ rs.map (fun r => r.ant_id) := hperm.mem_iff.mpr hid
      rcases List.mem_map.mp hidin with ⟨r, hr, hrid⟩
      have hcontra := List.find?_eq_none.mp hf r hr
      simp [hrid] at hcontra
  obtain ⟨r0, rest, rfl⟩ : ∃ r0 rest, rs = r0 :: rest := by
    cases rs with
    | nil => simp at hlen; omega
    | cons a l => exact ⟨a, l, rfl⟩
  obtain ⟨mid, rlast, rfl⟩ : ∃ mid rlast, rest = mid ++ [rlast] := by
    rcases rest.eq_nil_or_concat' with h | ⟨L, x, h⟩
    · subst h
      simp at hlen
      omega
    · exact ⟨L, x, h⟩
  have hKall : ∀ r ∈ r0 :: (mid ++ [rlast]), beaconKeyOf r = groupKey b ts := by
    intro r hr
    rcases hkey r hr with ⟨h1, h2⟩
    simp [beaconKeyOf, groupKey, h1, h2]
  have hK0 : beaconKeyOf r0 = groupKey b ts := hKall r0 (List.mem_cons_self _ _)
  have hando := hperm.symm.nodup hnodup
  simp only [List.map_cons, List.nodup_cons] at hando
  have hstep0 : processJsonRecord cfg initialEngineState r0 =
      .ok ⟨[(groupKey b ts, ⟨some ⟨[(r0.ant_id, r0.dbm_ant)], some 1⟩⟩)], []⟩ := by
    simp [processJsonRecord, initialEngineState, alookup, hK0,
      persistAntennaIdAndDbmValueInHdf5, hdf5CreateDataset]
  have haccum : ∀ l : List JSONDocumentModel, List.Sublist l (mid ++ [rlast]) →
      1 + l.length < cfg.expectedAntennaIds.length →
      runRecordsFrom cfg
          ⟨[(groupKey b ts, ⟨some ⟨[(r0.ant_id, r0.dbm_ant)], some 1⟩⟩)], []⟩ false l =
        .ok ⟨[(groupKey b ts, ⟨some ⟨[(r0.ant_id, r0.dbm_ant)] ++ pairsOf l,
          some ([(r0.ant_id, r0.dbm_ant)] ++ pairsOf l).length⟩⟩)], []⟩ false := by
    intro l hsub hllen
    refine runOneKey_accumulate cfg (groupKey b ts) l [(r0.ant_id, r0.dbm_ant)] [] false
      ?_ ?_ ?_ ?_
    · intro r hr
      exact hKall r (List.mem_cons_of_mem _ (hsub.subset hr))
    · intro r hr
      have hne : r.ant_id ≠ r0.ant_id := by
        intro hcontra
        exact hando.1 (hcontra ▸ List.mem_map_of_mem (fun x => x.ant_id) (hsub.subset hr))
      simp [alookup, hne]
    · exact ((hsub.map (fun r => r.ant_id)).nodup) hando.2
    · simpa using hllen
  have hmlen : mid.length + 2 = cfg.expectedAntennaIds.length := by
    simp only [List.length_cons, List.length_append, List.length_nil] at hlen
    omega
  have hmidrun := haccum mid (List.sublist_append_left mid [rlast]) (by omega)
  have hKl : beaconKeyOf rlast = groupKey b ts := hKall rlast (by simp)
  have hcomp2 : (pairsOf mid).length + 1 + 1 = cfg.expectedAntennaIds.length := by
    simp only [pairsOf, List.length_map]
    omega
  have hfin : processJsonRecord cfg
      ⟨[(groupKey b ts, ⟨some ⟨[(r0.ant_id, r0.dbm_ant)] ++ pairsOf mid,
        some ([(r0.ant_id, r0.dbm_ant)] ++ pairsOf mid).length⟩⟩)], []⟩ rlast =
      .ok ⟨[], [buildResultsRecord cfg
          ⟨[(r0.ant_id, r0.dbm_ant)] ++ pairsOf mid,
           some ([(r0.ant_id, r0.dbm_ant)] ++ pairsOf mid).length⟩
          (groupKey b ts) (some rlast)]⟩ := by
    simp [processJsonRecord, hKl, alookup, processAntennasSamplesStatistics, hcomp2,
      aremove]
  have hpairs_eq : [(r0.ant_id, r0.dbm_ant)] ++ pairsOf mid = pairsOf (r0 :: mid) := by
    simp [pairsOf]
  have hvec : buildResultsRecord cfg
      ⟨[(r0.ant_id, r0.dbm_ant)] ++ pairsOf mid,
       some ([(r0.ant_id, r0.dbm_ant)] ++ pairsOf mid).length⟩
      (groupKey b ts) (some rlast) =
      ⟨groupKey b ts, cfg.expectedAntennaIds.map
        (readingValueIn (r0 :: (mid ++ [rlast])) cfg.defaultDbmAntValue)⟩ := by
    unfold buildResultsRecord
    refine congrArg (fun v => OutputRecord.mk (groupKey b ts) v) ?_
    refine List.map_congr_left ?_
    intro id hid
    show (match alookup id ([(r0.ant_id, r0.dbm_ant)] ++ pairsOf mid) with
      | none =>
        if id = rlast.ant_id then rlast.dbm_ant else cfg.defaultDbmAntValue
      | some dbmAnt => dbmAnt) =
      readingValueIn (r0 :: (mid ++ [rlast])) cfg.defaultDbmAntValue id
    rw [hpairs_eq, alookup_pairsOf]
    unfold readingValueIn
    have hfsplit : (r0 :: (mid ++ [rlast])).find? (fun r => r.ant_id = id) =
        ((r0 :: mid).find? (fun r => r.ant_id = id)).or
          ([rlast].find? (fun r => r.ant_id = id)) := by
      rw [← List.cons_append, List.find?_append]
    rw [hfsplit]
    cases hfind : (r0 :: mid).find? (fun r => r.ant_id = id) with
    | some rr => simp
    | none =>
      have hidr : rlast.ant_id = id := by
        have hidin : id ∈ (r0 :: (mid ++ [rlast])).map (fun r => r.ant_id) :=
          hperm.mem_iff.mpr hid
        rw [← List.cons_append, List.map_append] at hidin
        rcases List.mem_append.mp hidin with hin | hin
        · exfalso
          rcases List.mem_map.mp hin with ⟨r, hr, hrid⟩
          have hcontra := List.find?_eq_none.mp hfind r hr
          simp [hrid] at hcontra
        · simp only [List.map_cons, List.map_nil, List.mem_singleton] at hin
          exact hin.symm
      simp [← hidr]
  refine ⟨?_, ?_, hthird⟩
  · simp only [runRecordsFrom, hstep0]
    rw [runRecordsFrom_append, hmidrun]
    simp only [runRecordsFrom, hfin, hvec]
  · intro k hk
    cases k with
    | zero => exact ⟨initialEngineState, rfl, rfl⟩
    | succ j =>
      rw [List.take_succ_cons]
      have hjlen : 1 + ((mid ++ [rlast]).take j).length < cfg.expectedAntennaIds.length := by
        rw [List.length_take]
        simp only [List.length_cons, List.length_append, List.length_nil] at hk hlen
        simp only [List.length_append, List.length_singleton]
        omega
      have hrunj := haccum ((mid ++ [rlast]).take j) (List.take_sublist j _) hjlen
      have hrun1 : runRecordsFrom cfg initialEngineState false
          (r0 :: (mid ++ [rlast]).take j) =
          .ok ⟨[(groupKey b ts,
            ⟨some ⟨[(r0.ant_id, r0.dbm_ant)] ++ pairsOf ((mid ++ [rlast]).take j),
              some ([(r0.ant_id, r0.dbm_ant)] ++
                pairsOf ((mid ++ [rlast]).take j)).length⟩⟩)], []⟩ false := by
        simp only [runRecordsFrom, hstep0]
        exact hrunj
      exact ⟨_, hrun1, rfl⟩

/-- Witness for `c1_one_reading_per_id_completes`: expected ids
`[201, 202]`, two readings for the key `1, T` arriving in the order
202 then 201; the run emits exactly the one completed record. -/
theorem c1_one_reading_per_id_completes_witness :
    runRecordsFrom ⟨[201, 202], -135⟩ initialEngineState false
        [⟨1, 202, 7, "T"⟩, ⟨1, 201, 9, "T"⟩] =
      .ok ⟨[], [⟨groupKey 1 "T", ([201, 202] : List Int).map
        (readingValueIn [⟨1, 202, 7, "T"⟩, ⟨1, 201, 9, "T"⟩] (-135))⟩]⟩ false ∧
    (∀ k, k < ([⟨1, 202, 7, "T"⟩, ⟨1, 201, 9, "T"⟩] : List JSONDocumentModel).length →
      ∃ s', runRecordsFrom ⟨[201, 202], -135⟩ initialEngineState false
          (([⟨1, 202, 7, "T"⟩, ⟨1, 201, 9, "T"⟩] : List JSONDocumentModel).take k) =
          .ok s' false ∧ s'.outputs = []) ∧
    ((∀ r ∈ ([⟨1, 202, 7, "T"⟩, ⟨1, 201, 9, "T"⟩] : List JSONDocumentModel),
        r.dbm_ant ≠ -135) →
      ∀ x ∈ ([201, 202] : List Int).map
          (readingValueIn [⟨1, 202, 7, "T"⟩, ⟨1, 201, 9, "T"⟩] (-135)),
        x ≠ -135) :=
  c1_one_reading_per_id_completes ⟨[201, 202], -135⟩ 1 "T"
    [⟨1, 202, 7, "T"⟩, ⟨1, 201, 9, "T"⟩]
    (by decide) (by decide) (by decide) (by decide)

/-- `keyCount` adds over append. -/
theorem keyCount_append (k : String) :
    ∀ (p q : List JSONDocumentModel), keyCount (p ++ q) k = keyCount p k + keyCount q k := by
  intro p q
  induction p with
  | nil => simp [keyCount]
  | cons r rest ih => simp [keyCount, ih]; omega

/-- A key has a positive count exactly when some reading derives it. -/
theorem keyCount_pos_iff_mem {k : String} :
    ∀ {rs : List JSONDocumentModel}, 0 < keyCount rs k ↔ k ∈ rs.map beaconKeyOf := by
  intro rs
  induction rs with
  | nil => simp [keyCount]
  | cons r rest ih =>
    simp only [keyCount, List.map_cons, List.mem_cons]
    by_cases h : beaconKeyOf r = k
    · simp [h]
    · simp only [if_neg h, Nat.zero_add, ih]
      constructor
      · exact Or.inr
      · rintro (hl | hl)
        · exact absurd hl.symm h
        · exact hl

/-- Lookup misses exactly the keys absent from the store. -/
theorem alookup_eq_none {κ β : Type} [DecidableEq κ] {k : κ} :
    ∀ {l : List (κ × β)}, alookup k l = none ↔ k ∉ l.map Prod.fst := by
  intro l
  induction l with
  | nil => simp [alookup]
  | cons q rest ih =>
    obtain ⟨k1, b1⟩ := q
    rw [alookup]
    by_cases hk : k = k1
    · simp [hk]
    · simp [if_neg hk, ih, hk]

/-- After removing a key, looking it up misses. -/
theorem alookup_aremove_self {κ β : Type} [DecidableEq κ] {k : κ} :
    ∀ {l : List (κ × β)}, alookup k (aremove k l) = none := by
  intro l
  induction l with
  | nil => rfl
  | cons q rest ih =>
    obtain ⟨k1, b1⟩ := q
    rw [aremove]
    by_cases hk : k = k1
    · rw [if_pos hk]; exact ih
    · rw [if_neg hk, alookup, if_neg hk]; exact ih

/-- Removing one key leaves lookups of other keys unchanged. -/
theorem alookup_aremove_ne {κ β : Type} [DecidableEq κ] {k k' : κ} (hne : k' ≠ k) :
    ∀ {l : List (κ × β)}, alookup k' (aremove k l) = alookup k' l := by
  intro l
  induction l with
  | nil => rfl
  | cons q rest ih =>
    obtain ⟨k1, b1⟩ := q
    rw [aremove]
    by_cases hk : k = k1
    · rw [if_pos hk, alookup, if_neg (hk ▸ hne)]
      exact ih
    · rw [if_neg hk, alookup, alookup]
      by_cases hk' : k' = k1
      · rw [if_pos hk', if_pos hk']
      · rw [if_neg hk', if_neg hk']
        exact ih

/-- `aremove` yields a sublist of the store. -/
theorem aremove_sublist {κ β : Type} [DecidableEq κ] (k : κ) :
    ∀ (l : List (κ × β)), List.Sublist (aremove k l) l := by
  intro l
  induction l with
  | nil => exact List.Sublist.refl _
  | cons q rest ih =>
    obtain ⟨k1, b1⟩ := q
    rw [aremove]
    by_cases hk : k = k1
    · rw [if_pos hk]
      exact ih.cons _
    · rw [if_neg hk]
      exact ih.cons₂ _

/-- Key membership after a removal. -/
theorem mem_map_fst_aremove {κ β : Type} [DecidableEq κ] {k k' : κ} :
    ∀ {l : List (κ × β)}, k' ∈ (aremove k l).map Prod.fst ↔
      k' ∈ l.map Prod.fst ∧ k' ≠ k := by
  intro l
  induction l with
  | nil => simp [aremove]
  | cons q rest ih =>
    obtain ⟨k1, b1⟩ := q
    rw [aremove]
    by_cases hk : k = k1
    · rw [if_pos hk]
      subst hk
      rw [ih]
      simp only [List.map_cons, List.mem_cons]
      constructor
      · exact fun ⟨h1, h2⟩ => ⟨Or.inr h1, h2⟩
      · rintro ⟨hl | hl, h2⟩
        · exact absurd hl h2
        · exact ⟨hl, h2⟩
    · rw [if_neg hk]
      simp only [List.map_cons, List.mem_cons, ih]
      constructor
      · rintro (hl | ⟨h1, h2⟩)
        · exact ⟨Or.inl hl, fun hcontra => hk (hcontra ▸ hl)⟩
        · exact ⟨Or.inr h1, h2⟩
      · rintro ⟨hl | hl, h2⟩
        · exact Or.inl hl
        · exact Or.inr ⟨hl, h2⟩

/-- `setAntennaGroup` leaves the key sequence unchanged. -/
theorem map_fst_setAntennaGroup {key : String} {g' : HAntennaIdDbmGroup} :
    ∀ {l : BeaconsGroup}, (setAntennaGroup key g' l).map Prod.fst = l.map Prod.fst := by
  intro l
  induction l with
  | nil => rfl
  | cons q rest ih =>
    obtain ⟨k1, b1⟩ := q
    rw [setAntennaGroup]
    by_cases hk : key = k1
    · rw [if_pos hk]
      simp [ih]
    · rw [if_neg hk]
      simp [ih]

/-- After updating a present key, looking it up yields the written
sub-group. -/
theorem alookup_setAntennaGroup_self {key : String} {g' : HAntennaIdDbmGroup}
    {bg : HBeaconGroup} :
    ∀ {l : BeaconsGroup}, alookup key l = some bg →
      alookup key (setAntennaGroup key g' l) = some ⟨some g'⟩ := by
  intro l
  induction l with
  | nil => intro h; simp [alookup] at h
  | cons q rest ih =>
    obtain ⟨k1, b1⟩ := q
    intro h
    rw [alookup] at h
    rw [setAntennaGroup]
    by_cases hk : key = k1
    · rw [if_pos hk, alookup, if_pos hk]
    · rw [if_neg hk] at h
      rw [if_neg hk, alookup, if_neg hk]
      exact ih h

/-- Updating one key leaves lookups of other keys unchanged. -/
theorem alookup_setAntennaGroup_ne {key k' : String} {g' : HAntennaIdDbmGroup}
    (hne : k' ≠ key) :
    ∀ {l : BeaconsGroup}, alookup k' (setAntennaGroup key g' l) = alookup k' l := by
  intro l
  induction l with
  | nil => rfl
  | cons q rest ih =>
    obtain ⟨k1, b1⟩ := q
    rw [setAntennaGroup]
    by_cases hk : key = k1
    · rw [if_pos hk, alookup, alookup, if_neg (hk ▸ hne), if_neg (hk ▸ hne)]
    · rw [if_neg hk, alookup, alookup]
      by_cases hk' : k' = k1
      · rw [if_pos hk', if_pos hk']
      · rw [if_neg hk', if_neg hk']
        exact ih

/-- In a store with distinct keys, every entry is the one its key looks up. -/
theorem alookup_of_mem_nodup {κ β : Type} [DecidableEq κ] {k : κ} {bg : β} :
    ∀ {l : List (κ × β)}, (l.map Prod.fst).Nodup → (k, bg) ∈ l →
      alookup k l = some bg := by
  intro l
  induction l with
  | nil => intro _ h; simp at h
  | cons q rest ih =>
    obtain ⟨k1, b1⟩ := q
    intro hnd hmem
    simp only [List.map_cons, List.nodup_cons] at hnd
    rcases List.mem_cons.mp hmem with heq | hmem2
    · cases heq
      rw [alookup, if_pos rfl]
    · have hk : k ≠ k1 := by
        intro hcontra
        subst hcontra
        exact hnd.1 (List.mem_map_of_mem Prod.fst hmem2)
      rw [alookup, if_neg hk]
      exact ih hnd.2 hmem2

/-- No key is seen more often than there are readings. -/
theorem keyCount_le_length : ∀ (rs : List JSONDocumentModel) (k : String),
    keyCount rs k ≤ rs.length := by
  intro rs k
  induction rs with
  | nil => simp [keyCount]
  | cons r rest ih =>
    simp only [keyCount, List.length_cons]
    by_cases h : beaconKeyOf r = k
    · simp [h]; omega
    · simp [h]; omega

/-- Exhaustive enumeration of what one processing step does, with the
conditions selecting each branch: create a new group, warn on a missing
sub-group, complete and emit, persist a fresh pair, or abort on a
duplicate dataset link. -/
theorem processJsonRecord_shape (cfg : Config) (s : EngineState)
    (r : JSONDocumentModel) :
    (alookup (beaconKeyOf r) s.beacons = none ∧
      processJsonRecord cfg s r =
        .ok ⟨s.beacons ++ [(beaconKeyOf r, ⟨some ⟨[(r.ant_id, r.dbm_ant)], some 1⟩⟩)],
             s.outputs⟩) ∨
    (∃ bg, alookup (beaconKeyOf r) s.beacons = some bg ∧
      bg.antennaIdDbmMap = none ∧ processJsonRecord cfg s r = .warned s) ∨
    (∃ bg g, alookup (beaconKeyOf r) s.beacons = some bg ∧
      bg.antennaIdDbmMap = some g ∧
      g.sampledAntennasCount.getD 0 + 1 = cfg.expectedAntennaIds.length ∧
      processJsonRecord cfg s r =
        .ok ⟨aremove (beaconKeyOf r) s.beacons,
             s.outputs ++ [buildResultsRecord cfg g (beaconKeyOf r) (some r)]⟩) ∨
    (∃ bg g, alookup (beaconKeyOf r) s.beacons = some bg ∧
      bg.antennaIdDbmMap = some g ∧
      g.sampledAntennasCount.getD 0 + 1 ≠ cfg.expectedAntennaIds.length ∧
      alookup r.ant_id g.dbmMap = none ∧
      processJsonRecord cfg s r =
        .ok ⟨setAntennaGroup (beaconKeyOf r)
              ⟨g.dbmMap ++ [(r.ant_id, r.dbm_ant)],
               some (g.sampledAntennasCount.getD 0 + 1)⟩ s.beacons,
             s.outputs⟩) ∨
    processJsonRecord cfg s r = .failed := by
  cases halk : alookup (beaconKeyOf r) s.beacons with
  | none =>
    refine Or.inl ⟨rfl, ?_⟩
    simp [processJsonRecord, halk, persistAntennaIdAndDbmValueInHdf5,
      hdf5CreateDataset, alookup]
  | some bg =>
    cases hsub : bg.antennaIdDbmMap with
    | none =>
      refine Or.inr (Or.inl ⟨bg, rfl, hsub, ?_⟩)
      simp [processJsonRecord, halk, hsub]
    | some g =>
      by_cases hc : g.sampledAntennasCount.getD 0 + 1 = cfg.expectedAntennaIds.length
      · refine Or.inr (Or.inr (Or.inl ⟨bg, g, rfl, hsub, hc, ?_⟩))
        simp [processJsonRecord, halk, hsub, processAntennasSamplesStatistics, hc]
      · cases hcd : alookup r.ant_id g.dbmMap with
        | none =>
          refine Or.inr (Or.inr (Or.inr (Or.inl ⟨bg, g, rfl, hsub, hc, hcd, ?_⟩)))
          simp [processJsonRecord, halk, hsub, processAntennasSamplesStatistics, hc,
            persistAntennaIdAndDbmValueInHdf5, hdf5CreateDataset, hcd]
        | some v =>
          refine Or.inr (Or.inr (Or.inr (Or.inr ?_)))
          simp [processJsonRecord, halk, hsub, processAntennasSamplesStatistics, hc,
            persistAntennaIdAndDbmValueInHdf5, hdf5CreateDataset, hcd]

/-- One successful step preserves the accounting invariant, provided the
key still has budget: its readings so far, plus this one, do not exceed
the expected-set size. -/
theorem processJsonRecord_accounted {cfg : Config} {s : EngineState}
    {r : JSONDocumentModel} {processed : List JSONDocumentModel}
    (hbudget : keyCount processed (beaconKeyOf r) + 1 ≤ cfg.expectedAntennaIds.length)
    (h : accounted cfg.expectedAntennaIds.length processed s) :
    ∀ s', processJsonRecord cfg s r = .ok s' →
      accounted cfg.expectedAntennaIds.length (processed ++ [r]) s' := by
  obtain ⟨hA, hB, hC, hD, hE⟩ := h
  intro s' hok
  have hcount_self : keyCount (processed ++ [r]) (beaconKeyOf r) =
      keyCount processed (beaconKeyOf r) + 1 := by
    rw [keyCount_append]
    simp [keyCount]
  have hcount_ne : ∀ k, k ≠ beaconKeyOf r →
      keyCount (processed ++ [r]) k = keyCount processed k := by
    intro k hk
    rw [keyCount_append]
    have hne : beaconKeyOf r ≠ k := fun hcontra => hk hcontra.symm
    simp [keyCount, hne]
  rcases processJsonRecord_shape cfg s r with
    ⟨halk, hstep⟩ | ⟨bg, halk, hsub, hstep⟩ | ⟨bg, g, halk, hsub, hc, hstep⟩ |
    ⟨bg, g, halk, hsub, hc, hfresh, hstep⟩ | hstep
  · -- new key: create the group with count 1
    rw [hstep] at hok
    cases hok
    have hnotin : beaconKeyOf r ∉ s.beacons.map Prod.fst := alookup_eq_none.mp halk
    have hnotout : beaconKeyOf r ∉ s.outputs.map OutputRecord.beacon := by
      intro hmem
      have hd := (hD _).mp hmem
      omega
    have hzero : keyCount processed (beaconKeyOf r) = 0 := by
      by_contra hz
      exact hnotin ((hE _).mpr ⟨Nat.pos_of_ne_zero hz, hnotout⟩)
    refine ⟨?_, hB, ?_, ?_, ?_⟩
    · rw [List.map_append, List.nodup_append]
      refine ⟨hA, by simp, ?_⟩
      intro a ha hb
      simp only [List.map_cons, List.map_nil, List.mem_singleton] at hb
      subst hb
      exact hnotin ha
    · intro k bg' hlk
      rw [alookup_append] at hlk
      by_cases hk : k = beaconKeyOf r
      · subst hk
        rw [halk] at hlk
        simp only [alookup] at hlk
        rw [if_pos trivial] at hlk
        cases hlk
        refine ⟨⟨[(r.ant_id, r.dbm_ant)], some 1⟩, rfl, ?_⟩
        rw [hcount_self, hzero]
      · cases hold : alookup k s.beacons with
        | some bgold =>
          rw [hold] at hlk
          have hbg : bgold = bg' := by simpa using hlk
          subst hbg
          rcases hC k bgold hold with ⟨g2, hg2, hcnt2⟩
          exact ⟨g2, hg2, by rw [hcount_ne k hk]; exact hcnt2⟩
        | none =>
          rw [hold] at hlk
          simp [alookup, hk] at hlk
    · intro k
      by_cases hk : k = beaconKeyOf r
      · subst hk
        rw [hcount_self, hzero]
        constructor
        · intro hmem
          exact absurd hmem hnotout
        · rintro ⟨h1, h2⟩
          exact ((by omega : False)).elim
      · rw [hcount_ne k hk]
        exact hD k
    · intro k
      rw [List.map_append, List.mem_append]
      by_cases hk : k = beaconKeyOf r
      · subst hk
        rw [hcount_self, hzero]
        constructor
        · intro _
          exact ⟨by omega, hnotout⟩
        · intro _
          right
          simp
      · rw [hcount_ne k hk]
        constructor
        · rintro (hmem | hmem)
          · exact (hE k).mp hmem
          · simp only [List.map_cons, List.map_nil, List.mem_singleton] at hmem
            exact absurd hmem hk
        · intro hr
          exact Or.inl ((hE k).mpr hr)
  · -- warning branch: cannot be the ok outcome
    rw [hstep] at hok
    simp at hok
  · -- completion: emit and remove
    rw [hstep] at hok
    cases hok
    rcases hC _ bg halk with ⟨g0, hg0, hcnt0⟩
    rw [hsub] at hg0
    cases hg0
    have hcN : keyCount processed (beaconKeyOf r) + 1 = cfg.expectedAntennaIds.length := by
      rw [hcnt0] at hc
      simpa using hc
    have hin : beaconKeyOf r ∈ s.beacons.map Prod.fst :=
      List.mem_map_of_mem Prod.fst (alookup_mem halk)
    have hpos : 0 < keyCount processed (beaconKeyOf r) := ((hE _).mp hin).1
    have hnotout : beaconKeyOf r ∉ s.outputs.map OutputRecord.beacon := ((hE _).mp hin).2
    have houtmap : (s.outputs ++ [buildResultsRecord cfg g (beaconKeyOf r) (some r)]).map
        OutputRecord.beacon = s.outputs.map OutputRecord.beacon ++ [beaconKeyOf r] := by
      simp [buildResultsRecord]
    refine ⟨?_, ?_, ?_, ?_, ?_⟩
    · exact (((aremove_sublist (beaconKeyOf r) s.beacons).map Prod.fst).nodup) hA
    · rw [houtmap, List.nodup_append]
      refine ⟨hB, by simp, ?_⟩
      intro a ha hb
      simp only [List.mem_singleton] at hb
      subst hb
      exact hnotout ha
    · intro k bg' hlk
      have hkne : k ≠ beaconKeyOf r := by
        intro hcontra
        rw [hcontra, alookup_aremove_self] at hlk
        cases hlk
      rw [alookup_aremove_ne hkne] at hlk
      rcases hC k bg' hlk with ⟨g2, hg2, hcnt2⟩
      exact ⟨g2, hg2, by rw [hcount_ne k hkne]; exact hcnt2⟩
    · intro k
      rw [houtmap, List.mem_append]
      by_cases hk : k = beaconKeyOf r
      · subst hk
        rw [hcount_self]
        constructor
        · intro _
          exact ⟨hcN, by omega⟩
        · intro _
          right
          simp
      · rw [hcount_ne k hk]
        constructor
        · rintro (hmem | hmem)
          · exact (hD k).mp hmem
          · simp only [List.mem_singleton] at hmem
            exact absurd hmem hk
        · intro hr
          exact Or.inl ((hD k).mpr hr)
    · intro k
      by_cases hk : k = beaconKeyOf r
      · subst hk
        constructor
        · intro hmem
          rw [mem_map_fst_aremove] at hmem
          exact absurd rfl hmem.2
        · rintro ⟨h1, h2⟩
          exfalso
          exact h2 (by rw [houtmap, List.mem_append]; right; simp)
      · constructor
        · intro hmem
          rw [mem_map_fst_aremove] at hmem
          rcases (hE k).mp hmem.1 with ⟨hp, hno⟩
          rw [hcount_ne k hk]
          refine ⟨hp, ?_⟩
          rw [houtmap, List.mem_append]
          rintro (hh | hh)
          · exact hno hh
          · simp only [List.mem_singleton] at hh
            exact hk hh
        · rintro ⟨hp, hno⟩
          rw [mem_map_fst_aremove]
          rw [hcount_ne k hk] at hp
          refine ⟨(hE k).mpr ⟨hp, ?_⟩, hk⟩
          intro hh
          exact hno (by rw [houtmap, List.mem_append]; exact Or.inl hh)
  · -- persist: record the pair, bump the count
    rw [hstep] at hok
    cases hok
    rcases hC _ bg halk with ⟨g0, hg0, hcnt0⟩
    rw [hsub] at hg0
    cases hg0
    have hgetD : g.sampledAntennasCount.getD 0 = keyCount processed (beaconKeyOf r) := by
      rw [hcnt0]
      rfl
    have hin : beaconKeyOf r ∈ s.beacons.map Prod.fst :=
      List.mem_map_of_mem Prod.fst (alookup_mem halk)
    have hnotout : beaconKeyOf r ∉ s.outputs.map OutputRecord.beacon := ((hE _).mp hin).2
    refine ⟨?_, hB, ?_, ?_, ?_⟩
    · rw [map_fst_setAntennaGroup]
      exact hA
    · intro k bg' hlk
      by_cases hk : k = beaconKeyOf r
      · subst hk
        rw [alookup_setAntennaGroup_self halk] at hlk
        cases hlk
        refine ⟨⟨g.dbmMap ++ [(r.ant_id, r.dbm_ant)],
          some (g.sampledAntennasCount.getD 0 + 1)⟩, rfl, ?_⟩
        rw [hgetD, hcount_self]
      · rw [alookup_setAntennaGroup_ne hk] at hlk
        rcases hC k bg' hlk with ⟨g2, hg2, hcnt2⟩
        exact ⟨g2, hg2, by rw [hcount_ne k hk]; exact hcnt2⟩
    · intro k
      by_cases hk : k = beaconKeyOf r
      · subst hk
        rw [hcount_self]
        constructor
        · intro hmem
          exact absurd hmem hnotout
        · rintro ⟨h1, h2⟩
          rw [hgetD] at hc
          exact absurd h1 hc
      · rw [hcount_ne k hk]
        exact hD k
    · intro k
      rw [map_fst_setAntennaGroup]
      by_cases hk : k = beaconKeyOf r
      · subst hk
        rw [hcount_self]
        constructor
        · intro _
          exact ⟨by omega, hnotout⟩
        · intro _
          exact hin
      · rw [hcount_ne k hk]
        exact hE k
  · rw [hstep] at hok
    cases hok

/-- A successful run establishes the accounting invariant for the whole
processed sequence, provided no key's total reading count exceeds the
expected-set size. -/
theorem runRecordsFrom_accounted {cfg : Config} :
    ∀ (rest processed : List JSONDocumentModel) (s : EngineState) (w : Bool),
      (∀ k, keyCount (processed ++ rest) k ≤ cfg.expectedAntennaIds.length) →
      accounted cfg.expectedAntennaIds.length processed s →
      ∀ s' w', runRecordsFrom cfg s w rest = .ok s' w' →
        accounted cfg.expectedAntennaIds.length (processed ++ rest) s' := by
  intro rest
  induction rest with
  | nil =>
    intro processed s w _ hacc s' w' hrun
    rw [runRecordsFrom] at hrun
    cases hrun
    simpa using hacc
  | cons r rest' ih =>
    intro processed s w hocc hacc s' w' hrun
    rw [runRecordsFrom] at hrun
    have hbudget : keyCount processed (beaconKeyOf r) + 1 ≤
        cfg.expectedAntennaIds.length := by
      have hk := hocc (beaconKeyOf r)
      rw [keyCount_append] at hk
      have h2 : keyCount (r :: rest') (beaconKeyOf r) =
          1 + keyCount rest' (beaconKeyOf r) := by
        simp [keyCount]
      rw [h2] at hk
      omega
    cases hstep : processJsonRecord cfg s r with
    | ok s1 =>
      rw [hstep] at hrun
      have hacc1 := processJsonRecord_accounted hbudget hacc s1 hstep
      have hlist : (processed ++ [r]) ++ rest' = processed ++ r :: rest' := by simp
      have hocc1 : ∀ k, keyCount ((processed ++ [r]) ++ rest') k ≤
          cfg.expectedAntennaIds.length := by
        intro k
        rw [hlist]
        exact hocc k
      have hres := ih (processed ++ [r]) s1 w hocc1 hacc1 s' w' hrun
      rw [hlist] at hres
      exact hres
    | warned s1 =>
      exfalso
      rcases processJsonRecord_shape cfg s r with
        ⟨-, heq⟩ | ⟨bg, halk, hsub, -⟩ | ⟨bg, g, -, -, -, heq⟩ |
        ⟨bg, g, -, -, -, -, heq⟩ | heq
      · rw [heq] at hstep; cases hstep
      · rcases hacc.2.2.1 _ bg halk with ⟨g, hg, -⟩
        rw [hsub] at hg
        cases hg
      · rw [heq] at hstep; cases hstep
      · rw [heq] at hstep; cases hstep
      · rw [heq] at hstep; cases hstep
    | failed =>
      rw [hstep] at hrun
      cases hrun

/-- The residual flush on a store whose groups all have their sub-group
emits one record per group, carrying exactly the store's keys in order. -/
theorem persistBeaconsVectorsAux_keys {cfg : Config} :
    ∀ {bs : BeaconsGroup}, (∀ p ∈ bs, p.2.antennaIdDbmMap ≠ none) →
      (persistBeaconsVectorsAux cfg bs).1.map OutputRecord.beacon =
        bs.map Prod.fst := by
  intro bs
  induction bs with
  | nil => intro _; rfl
  | cons p rest ih =>
    intro h
    obtain ⟨k1, bg1⟩ := p
    cases hsub : bg1.antennaIdDbmMap with
    | none => exact absurd hsub (h (k1, bg1) (List.mem_cons_self _ _))
    | some g =>
      simp only [persistBeaconsVectorsAux, hsub, List.map_cons]
      rw [ih (fun q hq => h q (List.mem_cons_of_mem _ hq))]
      rfl

/-- C4: two refutations of the unconditional claim.  (a) A key whose
readings continue after its group completed is flushed twice: with
expected set `[201, 202]`, three readings for the key `1, T` complete the
group on the second reading and then re-create it on the third; after the
residual flush the key has been emitted twice, although only one distinct
key was observed.  (b) A key containing `/` is a multi-component HDF5
path: a single reading with timestamp `x/y` nests its group under the
intermediate group `1, x`, the residual flush iterates only the direct
children of `beacons`, and the observed key is omitted — zero emissions
for one distinct observed key. -/
theorem c4_counterexample :
    (runRecordsFrom ⟨[201, 202], -135⟩ initialEngineState false
        [⟨1, 201, 5, "T"⟩, ⟨1, 202, 6, "T"⟩, ⟨1, 203, 7, "T"⟩] =
      .ok ⟨[("1, T", ⟨some ⟨[(203, 7)], some 1⟩⟩)], [⟨"1, T", [5, 6]⟩]⟩ false ∧
    ((persistBeaconsVectorsToResultsFile ⟨[201, 202], -135⟩
        ⟨[("1, T", ⟨some ⟨[(203, 7)], some 1⟩⟩)], [⟨"1, T", [5, 6]⟩]⟩).1.outputs.map
          OutputRecord.beacon) = ["1, T", "1, T"] ∧
    (([⟨1, 201, 5, "T"⟩, ⟨1, 202, 6, "T"⟩, ⟨1, 203, 7, "T"⟩] :
        List JSONDocumentModel).map beaconKeyOf).dedup.length = 1 ∧
    (2 : Nat) ≠ 1) ∧
    (runRecordsFromH ⟨[201, 202], -135⟩ initialHEngineState false
        [⟨1, 201, 5, "x/y"⟩] =
      .ok ⟨.node none [("1, x", .node none
            [("y", .node (some ⟨[(201, 5)], some 1⟩) [])])], []⟩ false ∧
    (persistBeaconsVectorsToResultsFileH ⟨[201, 202], -135⟩
        ⟨.node none [("1, x", .node none
            [("y", .node (some ⟨[(201, 5)], some 1⟩) [])])], []⟩).1.outputs = [] ∧
    (([⟨1, 201, 5, "x/y"⟩] : List JSONDocumentModel).map beaconKeyOf).dedup.length
      = 1 ∧
    (0 : Nat) ≠ 1) := by
  exact ⟨by decide, rfl, rfl, by decide, by decide⟩

/-- Over the flat store: for every input on which the run does not abort
and in which no key occurs more often than the expected-set size (so no
readings arrive for a key after its group completed), the emitted records
after the residual flush carry pairwise distinct beacon keys, their keys
are exactly the distinct group keys observed in the input, and their
number equals the number of distinct observed group keys. -/
theorem flatRun_emissions_eq_distinct_keys (cfg : Config)
    (rs : List JSONDocumentModel) (s : EngineState) (w : Bool)
    (hocc : ∀ k, keyCount rs k ≤ cfg.expectedAntennaIds.length)
    (hrun : runRecordsFrom cfg initialEngineState false rs = .ok s w) :
    ((persistBeaconsVectorsToResultsFile cfg s).1.outputs.map
        OutputRecord.beacon).Nodup ∧
    (∀ k, k ∈ (persistBeaconsVectorsToResultsFile cfg s).1.outputs.map
        OutputRecord.beacon ↔ k ∈ rs.map beaconKeyOf) ∧
    (persistBeaconsVectorsToResultsFile cfg s).1.outputs.length =
      (rs.map beaconKeyOf).dedup.length := by
  have hacc0 : accounted cfg.expectedAntennaIds.length [] initialEngineState := by
    refine ⟨List.nodup_nil, List.nodup_nil, ?_, ?_, ?_⟩
    · intro k bg hlk
      cases hlk
    · intro k
      simp only [initialEngineState, List.map_nil, List.not_mem_nil, false_iff,
        keyCount]
      omega
    · intro k
      simp [initialEngineState, keyCount]
  have hacc := runRecordsFrom_accounted rs [] initialEngineState false
    (by simpa using hocc) hacc0 s w hrun
  rw [List.nil_append] at hacc
  obtain ⟨hA, hB, hC, hD, hE⟩ := hacc
  have hsubs : ∀ p ∈ s.beacons, p.2.antennaIdDbmMap ≠ none := by
    intro p hp
    obtain ⟨k1, bg1⟩ := p
    rcases hC k1 bg1 (alookup_of_mem_nodup hA hp) with ⟨g, hg, -⟩
    simp [hg]
  have hkeys : (persistBeaconsVectorsAux cfg s.beacons).1.map OutputRecord.beacon =
      s.beacons.map Prod.fst := persistBeaconsVectorsAux_keys hsubs
  have hfinal : (persistBeaconsVectorsToResultsFile cfg s).1.outputs.map
      OutputRecord.beacon =
      s.outputs.map OutputRecord.beacon ++ s.beacons.map Prod.fst := by
    simp [persistBeaconsVectorsToResultsFile, hkeys]
  have hmem : ∀ k, k ∈ s.outputs.map OutputRecord.beacon ++ s.beacons.map Prod.fst ↔
      k ∈ rs.map beaconKeyOf := by
    intro k
    rw [List.mem_append]
    constructor
    · rintro (hmem1 | hmem1)
      · have hd := (hD k).mp hmem1
        exact keyCount_pos_iff_mem.mp (by omega)
      · have he := (hE k).mp hmem1
        exact keyCount_pos_iff_mem.mp he.1
    · intro hmem1
      by_cases ho : k ∈ s.outputs.map OutputRecord.beacon
      · exact Or.inl ho
      · exact Or.inr ((hE k).mpr ⟨keyCount_pos_iff_mem.mpr hmem1, ho⟩)
  have hnodup : (s.outputs.map OutputRecord.beacon ++ s.beacons.map Prod.fst).Nodup := by
    rw [List.nodup_append]
    refine ⟨hB, hA, ?_⟩
    intro a ha hb
    exact ((hE a).mp hb).2 ha
  refine ⟨?_, ?_, ?_⟩
  · rw [hfinal]
    exact hnodup
  · intro k
    rw [hfinal]
    exact hmem k
  · have h1 : (persistBeaconsVectorsToResultsFile cfg s).1.outputs.length =
        (s.outputs.map OutputRecord.beacon ++ s.beacons.map Prod.fst).length := by
      rw [← hfinal, List.length_map]
    rw [h1, ← List.toFinset_card_of_nodup hnodup, ← List.card_toFinset]
    congr 1
    ext a
    simp only [List.mem_toFinset]
    exact hmem a

/-- Over the flat store: starting from the empty store, every beacon group
ever present has its `antenna_id_dbm_map` sub-group (created together with
the group on the first reading for the key), so neither the per-reading
warning branch nor the residual-flush warning branch is ever taken, for
any configuration and any record sequence. -/
theorem flatRun_warning_branches_unreachable (cfg : Config)
    (rs : List JSONDocumentModel) :
    warnedAfterFlush cfg (runRecordsFrom cfg initialEngineState false rs) = false := by
  have h0 : storeInv cfg.expectedAntennaIds.length initialEngineState.beacons := by
    intro p hp
    simp [initialEngineState] at hp
  have hm := @runRecordsFrom_storeInv cfg rs initialEngineState false h0
  cases hres : runRecordsFrom cfg initialEngineState false rs with
  | ok s w =>
    rw [hres] at hm
    rcases hm with ⟨hinv, hw⟩
    subst hw
    simp [warnedAfterFlush, persistBeaconsVectorsToResultsFile,
      persistBeaconsVectorsAux_no_warn hinv]
  | failed w =>
    rw [hres] at hm
    subst hm
    rfl

/-- C9: after any run that did not abort, with an expected set of size
`N ≥ 2`, every GroupState in the store has a raw sample count `c` with
`1 ≤ c ≤ N - 1`, and `c` equals the number of antenna entries stored in its
map. -/
theorem c9_store_count_invariant (cfg : Config) (rs : List JSONDocumentModel)
    (s : EngineState) (w : Bool) (hN : 2 ≤ cfg.expectedAntennaIds.length)
    (hrun : runRecordsFrom cfg initialEngineState false rs = .ok s w) :
    ∀ p ∈ s.beacons, ∃ g, p.2.antennaIdDbmMap = some g ∧
      ∃ c, g.sampledAntennasCount = some c ∧ 1 ≤ c ∧
        c ≤ cfg.expectedAntennaIds.length - 1 ∧ g.dbmMap.length = c := by
  have h0 : storeInv cfg.expectedAntennaIds.length initialEngineState.beacons := by
    intro p hp
    simp [initialEngineState] at hp
  have hm := @runRecordsFrom_storeInv cfg rs initialEngineState false h0
  rw [hrun] at hm
  rcases hm with ⟨hinv, -⟩
  intro p hp
  rcases hinv p hp with ⟨g, hsub, hcnt, hlen, hbound⟩
  exact ⟨g, hsub, g.dbmMap.length, hcnt, hlen, by have := hbound hN; omega, rfl⟩

/-- Witness for `c9_store_count_invariant`: with expected ids
`[201, 202, 203]` and one processed reading, the single stored group has
count 1 = map size, within `[1, N - 1]`. -/
theorem c9_store_count_invariant_witness :
    ∃ g, (⟨some ⟨[(201, 5)], some 1⟩⟩ : HBeaconGroup).antennaIdDbmMap = some g ∧
      ∃ c, g.sampledAntennasCount = some c ∧ 1 ≤ c ∧ c ≤ 2 ∧ g.dbmMap.length = c :=
  c9_store_count_invariant ⟨[201, 202, 203], -135⟩ [⟨1, 201, 5, "T"⟩]
    ⟨[("1, T", ⟨some ⟨[(201, 5)], some 1⟩⟩)], []⟩ false (by decide) (by decide)
    ("1, T", ⟨some ⟨[(201, 5)], some 1⟩⟩) (List.mem_singleton.mpr rfl)

/-- A first-occurrence index of 0 means the list starts with that character. -/
theorem firstIndexOf_eq_zero {c : Char} {l : List Char}
    (h : firstIndexOf c l = some 0) : l.head? = some c := by
  cases l with
  | nil => simp [firstIndexOf] at h
  | cons x rest =>
    by_cases hx : x = c
    · simp [hx]
    · simp only [firstIndexOf, if_neg hx] at h
      cases hfi : firstIndexOf c rest with
      | none => rw [hfi] at h; simp at h
      | some i => rw [hfi] at h; simp at h

/-- C7: the Record Parser is total and non-fatal.  Given a line whose
trimmed form is neither blank nor a bracket sentinel: (1) if it does not
start with an opening brace it is skipped as malformed and the run
continues with the next line; (2) if it has no closing brace it is skipped
as malformed and the run continues; (3) if it is brace-delimited but
deserialization-plus-schema-validation (`dec`, standing for `json.loads`
followed by `JSONDocumentModel(**data)`, which returns `none` on
`json.JSONDecodeError` or `pydantic.ValidationError`) fails on the
remainder up to the last closing brace, it is skipped as an invalid
document and the run continues.  No branch aborts the run. -/
theorem c7_parser_skips_never_fatal :
    (∀ (dec : List Char → Option JSONDocumentModel) (rawLine : List Char)
        (cfg : Config) (s : EngineState) (w : Bool) (rest : List (List Char)),
      ¬(stripChars rawLine = [] ∨ stripChars rawLine = LINESEP) →
      ¬(stripChars rawLine = [']'] ∨ stripChars rawLine = ']' :: LINESEP) →
      ¬(stripChars rawLine = ['['] ∨ stripChars rawLine = '[' :: LINESEP) →
      (stripChars rawLine).head? ≠ some openBraceChar →
      classifyLine dec rawLine = .malformedSkipped ∧
        parseJsonDocumentsFromFile cfg dec s w (rawLine :: rest) =
          parseJsonDocumentsFromFile cfg dec s w rest) ∧
    (∀ (dec : List Char → Option JSONDocumentModel) (rawLine : List Char)
        (cfg : Config) (s : EngineState) (w : Bool) (rest : List (List Char)),
      ¬(stripChars rawLine = [] ∨ stripChars rawLine = LINESEP) →
      ¬(stripChars rawLine = [']'] ∨ stripChars rawLine = ']' :: LINESEP) →
      ¬(stripChars rawLine = ['['] ∨ stripChars rawLine = '[' :: LINESEP) →
      lastIndexOf closeBraceChar (stripChars rawLine) = none →
      classifyLine dec rawLine = .malformedSkipped ∧
        parseJsonDocumentsFromFile cfg dec s w (rawLine :: rest) =
          parseJsonDocumentsFromFile cfg dec s w rest) ∧
    (∀ (dec : List Char → Option JSONDocumentModel) (rawLine : List Char)
        (cfg : Config) (s : EngineState) (w : Bool) (rest : List (List Char))
        (closeBraceIdx : Nat),
      ¬(stripChars rawLine = [] ∨ stripChars rawLine = LINESEP) →
      ¬(stripChars rawLine = [']'] ∨ stripChars rawLine = ']' :: LINESEP) →
      ¬(stripChars rawLine = ['['] ∨ stripChars rawLine = '[' :: LINESEP) →
      firstIndexOf openBraceChar (stripChars rawLine) = some 0 →
      lastIndexOf closeBraceChar (stripChars rawLine) = some closeBraceIdx →
      dec ((stripChars rawLine).take (closeBraceIdx + 1)) = none →
      classifyLine dec rawLine = .invalidDocSkipped ∧
        parseJsonDocumentsFromFile cfg dec s w (rawLine :: rest) =
          parseJsonDocumentsFromFile cfg dec s w rest) := by
  refine ⟨?_, ?_, ?_⟩
  · intro dec rawLine cfg s w rest h1 h2 h3 hhead
    have hclass : classifyLine dec rawLine = .malformedSkipped := by
      simp only [classifyLine]
      rw [if_neg h1, if_neg h2, if_neg h3]
      cases hfi : firstIndexOf openBraceChar (stripChars rawLine) with
      | none => rfl
      | some oi =>
        cases hli : lastIndexOf closeBraceChar (stripChars rawLine) with
        | none => rfl
        | some ci =>
          have hoi : oi ≠ 0 := by
            intro h0
            exact hhead (firstIndexOf_eq_zero (h0 ▸ hfi))
          show (if oi ≠ 0 then LineOutcome.malformedSkipped
              else match dec (List.take (ci + 1) (stripChars rawLine)) with
                | none => LineOutcome.invalidDocSkipped
                | some r => LineOutcome.doc r) = LineOutcome.malformedSkipped
          rw [if_pos hoi]
    exact ⟨hclass, by simp only [parseJsonDocumentsFromFile, hclass]⟩
  · intro dec rawLine cfg s w rest h1 h2 h3 hnoclose
    have hclass : classifyLine dec rawLine = .malformedSkipped := by
      simp only [classifyLine]
      rw [if_neg h1, if_neg h2, if_neg h3]
      cases hfi : firstIndexOf openBraceChar (stripChars rawLine) with
      | none => rfl
      | some oi => rw [hnoclose]
    exact ⟨hclass, by simp only [parseJsonDocumentsFromFile, hclass]⟩
  · intro dec rawLine cfg s w rest closeBraceIdx h1 h2 h3 hfi hli hdec
    have hclass : classifyLine dec rawLine = .invalidDocSkipped := by
      simp only [classifyLine]
      rw [if_neg h1, if_neg h2, if_neg h3, hfi, hli]
      have h0 : ¬((0 : Nat) ≠ 0) := by simp
      show (if (0 : Nat) ≠ 0 then LineOutcome.malformedSkipped
          else match dec (List.take (closeBraceIdx + 1) (stripChars rawLine)) with
            | none => LineOutcome.invalidDocSkipped
            | some r => LineOutcome.doc r) = LineOutcome.invalidDocSkipped
      rw [if_neg h0, hdec]
    exact ⟨hclass, by simp only [parseJsonDocumentsFromFile, hclass]⟩

/-- Witness for `c7_parser_skips_never_fatal` at concrete lines: `abc`
(no opening brace), an opening brace with no closing brace, and a
brace-delimited line rejected by the decoder; each is skipped and the loop
continues. -/
theorem c7_parser_skips_witness :
    (classifyLine (fun _ => none) ['a', 'b', 'c'] = .malformedSkipped ∧
      parseJsonDocumentsFromFile shippedConfig (fun _ => none) initialEngineState false
          [['a', 'b', 'c']] =
        parseJsonDocumentsFromFile shippedConfig (fun _ => none) initialEngineState false
          []) ∧
    (classifyLine (fun _ => none) [openBraceChar, 'a'] = .malformedSkipped ∧
      parseJsonDocumentsFromFile shippedConfig (fun _ => none) initialEngineState false
          [[openBraceChar, 'a']] =
        parseJsonDocumentsFromFile shippedConfig (fun _ => none) initialEngineState false
          []) ∧
    (classifyLine (fun _ => none) [openBraceChar, closeBraceChar] = .invalidDocSkipped ∧
      parseJsonDocumentsFromFile shippedConfig (fun _ => none) initialEngineState false
          [[openBraceChar, closeBraceChar]] =
        parseJsonDocumentsFromFile shippedConfig (fun _ => none) initialEngineState false
          []) := by
  refine ⟨?_, ?_, ?_⟩
  · exact c7_parser_skips_never_fatal.1 (fun _ => none) ['a', 'b', 'c']
      shippedConfig initialEngineState false []
      (by decide) (by decide) (by decide) (by decide)
  · exact c7_parser_skips_never_fatal.2.1 (fun _ => none) [openBraceChar, 'a']
      shippedConfig initialEngineState false []
      (by decide) (by decide) (by decide) (by decide)
  · exact c7_parser_skips_never_fatal.2.2 (fun _ => none) [openBraceChar, closeBraceChar]
      shippedConfig initialEngineState false [] 1
      (by decide) (by decide) (by decide) (by decide) (by decide) rfl

/-- C8: an input consisting only of the opening and closing bracket lines
produces zero emitted records, an empty scratch store, and an output file
whose body is `"[" + linesep + linesep + "]" + linesep` — a valid empty
JSON array (its only non-whitespace characters are the two brackets), with
no record and no separating comma written. -/
theorem c8_empty_input (cfg : Config) (dec : List Char → Option JSONDocumentModel) :
    runProgram cfg dec [['['], [']']] =
      some ([], [], "[" ++ LINESEPS ++ LINESEPS ++ "]" ++ LINESEPS) ∧
    ("[" ++ LINESEPS ++ LINESEPS ++ "]" ++ LINESEPS).toList.filter
      (fun c => !isPySpace c) = ['[', ']'] := by
  exact ⟨rfl, by decide⟩


/-- A name without `/` is its own single path component. -/
theorem splitPath_no_slash {s : String} (h : '/' ∉ s.toList) :
    splitPath s = [s] := by
  have haux : ∀ (l cur : List Char), '/' ∉ l →
      splitPathAux cur l = [cur.reverse ++ l] := by
    intro l
    induction l with
    | nil =>
      intro cur _
      simp [splitPathAux]
    | cons c rest ih =>
      intro cur hn
      have hc : ¬(c = '/') := by
        intro hcontra
        exact hn (hcontra ▸ List.mem_cons_self _ _)
      rw [splitPathAux, if_neg hc, ih (c :: cur) (fun hm => hn (List.mem_cons_of_mem _ hm))]
      simp
  have hsmk : String.mk s.toList = s := by cases s; rfl
  unfold splitPath
  rw [haux s.toList [] h]
  simp [hsmk]

/-- Lookup through a value-mapped association list. -/
theorem alookup_map_value {κ β γ : Type} [DecidableEq κ] (f : β → γ) (k : κ) :
    ∀ l : List (κ × β),
      alookup k (l.map (fun p => (p.1, f p.2))) = (alookup k l).map f := by
  intro l
  induction l with
  | nil => rfl
  | cons q rest ih =>
    obtain ⟨k1, b1⟩ := q
    by_cases hk : k = k1
    · simp [alookup, hk]
    · simp only [List.map_cons, alookup, if_neg hk]
      exact ih

/-- Lookup in the flat view of the children. -/
theorem alookup_flatOfChildren (k : String) (cs : List (String × HBeaconTree)) :
    alookup k (flatOfChildren cs) =
      (alookup k cs).map (fun t => ⟨t.antennaIdDbmMap⟩) := by
  exact alookup_map_value (fun t => HBeaconGroup.mk t.antennaIdDbmMap) k cs

/-- The flat view of a cons. -/
theorem flatOfChildren_cons (p : String × HBeaconTree)
    (rest : List (String × HBeaconTree)) :
    flatOfChildren (p :: rest) =
      (p.1, ⟨p.2.antennaIdDbmMap⟩) :: flatOfChildren rest := rfl

/-- Link removal commutes with the flat view. -/
theorem flatOfChildren_aremove (k : String) :
    ∀ cs : List (String × HBeaconTree),
      flatOfChildren (aremove k cs) = aremove k (flatOfChildren cs) := by
  intro cs
  induction cs with
  | nil => rfl
  | cons q rest ih =>
    obtain ⟨k1, t1⟩ := q
    rw [flatOfChildren_cons]
    by_cases hk : k = k1
    · rw [aremove, if_pos hk, aremove, if_pos hk, ih]
    · rw [aremove, if_neg hk, flatOfChildren_cons, ih, aremove, if_neg hk]

/-- Replacing a child by a subtree whose payload is `some g` corresponds to
`setAntennaGroup` in the flat view. -/
theorem flatOfChildren_setChild (k : String) {t2 : HBeaconTree}
    {g : HAntennaIdDbmGroup} (hsub : t2.antennaIdDbmMap = some g) :
    ∀ cs : List (String × HBeaconTree),
      flatOfChildren (setChild k t2 cs) =
        setAntennaGroup k g (flatOfChildren cs) := by
  intro cs
  induction cs with
  | nil => rfl
  | cons q rest ih =>
    obtain ⟨k1, t1⟩ := q
    rw [flatOfChildren_cons]
    by_cases hk : k = k1
    · rw [setChild, if_pos hk, flatOfChildren_cons, hsub, setAntennaGroup, if_pos hk]
    · rw [setChild, if_neg hk, flatOfChildren_cons, ih, setAntennaGroup, if_neg hk]

/-- Updating a key that was just appended to a store that did not contain
it replaces exactly the appended entry. -/
theorem setChild_append_fresh {k : String} {t2 t3 : HBeaconTree} :
    ∀ {cs : List (String × HBeaconTree)}, alookup k cs = none →
      setChild k t3 (cs ++ [(k, t2)]) = cs ++ [(k, t3)] := by
  intro cs
  induction cs with
  | nil =>
    intro _
    simp [setChild]
  | cons q rest ih =>
    obtain ⟨k1, t1⟩ := q
    intro h
    rw [alookup] at h
    by_cases hk : k = k1
    · rw [if_pos hk] at h
      cases h
    · rw [if_neg hk] at h
      simp only [List.cons_append, setChild, if_neg hk]
      exact congrArg (List.cons (k1, t1)) (ih h)

/-- On a single-component path, lookup is plain child lookup. -/
theorem getPath_single (t : HBeaconTree) (c : String) :
    getPath t [c] = alookup c t.children := by
  cases h : alookup c t.children with
  | some t2 => simp [getPath, h]
  | none => simp [getPath, h]

/-- On a single-component path, the payload update rewrites the one child. -/
theorem updateSubAtPath_single {t : HBeaconTree} {c : String} {t2 : HBeaconTree}
    {g : HAntennaIdDbmGroup} (h : alookup c t.children = some t2) :
    updateSubAtPath t [c] g =
      some (.node t.antennaIdDbmMap
        (setChild c (.node (some g) t2.children) t.children)) := by
  simp [updateSubAtPath, h]

/-- On a fresh single-component path, group creation appends one empty
group. -/
theorem createGroupPath_single {t : HBeaconTree} {c : String}
    (h : alookup c t.children = none) :
    createGroupPath t [c] =
      some (.node t.antennaIdDbmMap (t.children ++ [(c, .node none [])])) := by
  simp [createGroupPath, h]

/-- On a single-component path, deletion removes the one child link. -/
theorem delPath_single (t : HBeaconTree) (c : String) :
    delPath t [c] = .node t.antennaIdDbmMap (aremove c t.children) := rfl

/-- On a reading whose key is a single path component (no `/`), the
path-aware step takes the same branch as the flat step and the resulting
states correspond through the flat view. -/
theorem processJsonRecordH_single_sim (cfg : Config) (s : HEngineState)
    (r : JSONDocumentModel)
    (hks : splitPath (beaconKeyOf r) = [beaconKeyOf r]) :
    (∀ s2, processJsonRecordH cfg s r = .ok s2 →
      processJsonRecord cfg (flatStateOf s) r = .ok (flatStateOf s2)) ∧
    (∀ s2, processJsonRecordH cfg s r = .warned s2 →
      processJsonRecord cfg (flatStateOf s) r = .warned (flatStateOf s2)) ∧
    (processJsonRecordH cfg s r = .failed →
      processJsonRecord cfg (flatStateOf s) r = .failed) := by
  obtain ⟨root, outs⟩ := s
  obtain ⟨rsub, rchildren⟩ := root
  cases halk : alookup (beaconKeyOf r) rchildren with
  | some bt =>
    obtain ⟨bsub, bchildren⟩ := bt
    have hflat : alookup (beaconKeyOf r) (flatOfChildren rchildren) =
        some ⟨bsub⟩ := by
      rw [alookup_flatOfChildren, halk]
      rfl
    cases bsub with
    | none =>
      have hH : processJsonRecordH cfg ⟨.node rsub rchildren, outs⟩ r =
          .warned ⟨.node rsub rchildren, outs⟩ := by
        simp [processJsonRecordH, hks, getPath_single, HBeaconTree.children,
          HBeaconTree.antennaIdDbmMap, halk]
      have hF : processJsonRecord cfg (flatStateOf ⟨.node rsub rchildren, outs⟩) r =
          .warned (flatStateOf ⟨.node rsub rchildren, outs⟩) := by
        simp [processJsonRecord, flatStateOf, HBeaconTree.children, hflat]
      refine ⟨?_, ?_, ?_⟩
      · intro s2 h
        rw [hH] at h
        exact StepResultH.noConfusion h
      · intro s2 h
        rw [hH] at h
        cases h
        exact hF
      · intro h
        rw [hH] at h
        exact StepResultH.noConfusion h
    | some g =>
      by_cases hc : g.sampledAntennasCount.getD 0 + 1 = cfg.expectedAntennaIds.length
      · have hH : processJsonRecordH cfg ⟨.node rsub rchildren, outs⟩ r =
            .ok ⟨.node rsub (aremove (beaconKeyOf r) rchildren),
                outs ++ [buildResultsRecord cfg g (beaconKeyOf r) (some r)]⟩ := by
          simp [processJsonRecordH, hks, getPath_single, HBeaconTree.children,
            HBeaconTree.antennaIdDbmMap, halk,
            processAntennasSamplesStatisticsH, hc, delPath_single]
        have hF : processJsonRecord cfg (flatStateOf ⟨.node rsub rchildren, outs⟩) r =
            .ok ⟨aremove (beaconKeyOf r) (flatOfChildren rchildren),
                outs ++ [buildResultsRecord cfg g (beaconKeyOf r) (some r)]⟩ := by
          simp [processJsonRecord, flatStateOf, HBeaconTree.children, hflat,
            processAntennasSamplesStatistics, hc]
        refine ⟨?_, ?_, ?_⟩
        · intro s2 h
          rw [hH] at h
          cases h
          rw [hF]
          simp [flatStateOf, HBeaconTree.children, flatOfChildren_aremove]
        · intro s2 h
          rw [hH] at h
          exact StepResultH.noConfusion h
        · intro h
          rw [hH] at h
          exact StepResultH.noConfusion h
      · cases hp : persistAntennaIdAndDbmValueInHdf5 g r
            (g.sampledAntennasCount.getD 0) with
        | none =>
          have hH : processJsonRecordH cfg ⟨.node rsub rchildren, outs⟩ r = .failed := by
            simp [processJsonRecordH, hks, getPath_single, HBeaconTree.children,
              HBeaconTree.antennaIdDbmMap, halk,
              processAntennasSamplesStatisticsH, hc, hp]
          have hF : processJsonRecord cfg (flatStateOf ⟨.node rsub rchildren, outs⟩) r =
              .failed := by
            simp [processJsonRecord, flatStateOf, HBeaconTree.children, hflat,
              processAntennasSamplesStatistics, hc, hp]
          refine ⟨?_, ?_, ?_⟩
          · intro s2 h
            rw [hH] at h
            exact StepResultH.noConfusion h
          · intro s2 h
            rw [hH] at h
            exact StepResultH.noConfusion h
          · intro _
            exact hF
        | some g2 =>
          have halk3 : alookup (beaconKeyOf r)
              (HBeaconTree.node rsub rchildren).children =
              some (HBeaconTree.node (some g) bchildren) := halk
          have hH : processJsonRecordH cfg ⟨.node rsub rchildren, outs⟩ r =
              .ok ⟨.node rsub
                    (setChild (beaconKeyOf r) (.node (some g2) bchildren) rchildren),
                  outs⟩ := by
            simp [processJsonRecordH, hks, getPath_single, HBeaconTree.children,
              HBeaconTree.antennaIdDbmMap, halk,
              processAntennasSamplesStatisticsH, hc, hp,
              updateSubAtPath_single halk3]
          have hF : processJsonRecord cfg (flatStateOf ⟨.node rsub rchildren, outs⟩) r =
              .ok ⟨setAntennaGroup (beaconKeyOf r) g2 (flatOfChildren rchildren),
                  outs⟩ := by
            simp [processJsonRecord, flatStateOf, HBeaconTree.children, hflat,
              processAntennasSamplesStatistics, hc, hp]
          refine ⟨?_, ?_, ?_⟩
          · intro s2 h
            rw [hH] at h
            cases h
            rw [hF]
            simp [flatStateOf, HBeaconTree.children,
              flatOfChildren_setChild (beaconKeyOf r)
                (rfl : (HBeaconTree.node (some g2) bchildren).antennaIdDbmMap = some g2)]
          · intro s2 h
            rw [hH] at h
            exact StepResultH.noConfusion h
          · intro h
            rw [hH] at h
            exact StepResultH.noConfusion h
  | none =>
    have hflat : alookup (beaconKeyOf r) (flatOfChildren rchildren) = none := by
      rw [alookup_flatOfChildren, halk]
      rfl
    have halkc : alookup (beaconKeyOf r)
        (HBeaconTree.node rsub rchildren).children = none := halk
    have halk2 : alookup (beaconKeyOf r)
        (HBeaconTree.node rsub
          (rchildren ++ [(beaconKeyOf r, HBeaconTree.node none [])])).children =
        some (HBeaconTree.node none []) := by
      show alookup (beaconKeyOf r)
        (rchildren ++ [(beaconKeyOf r, HBeaconTree.node none [])]) = _
      rw [alookup_append, halk]
      simp [alookup]
    have hH : processJsonRecordH cfg ⟨.node rsub rchildren, outs⟩ r =
        .ok ⟨.node rsub
              (rchildren ++
                [(beaconKeyOf r,
                  .node (some ⟨[(r.ant_id, r.dbm_ant)], some 1⟩) [])]),
            outs⟩ := by
      simp [processJsonRecordH, hks, getPath_single, HBeaconTree.children,
        HBeaconTree.antennaIdDbmMap, halk, createGroupPath_single halkc,
        persistAntennaIdAndDbmValueInHdf5, hdf5CreateDataset, alookup,
        updateSubAtPath_single halk2, setChild_append_fresh halk]
    have hF : processJsonRecord cfg (flatStateOf ⟨.node rsub rchildren, outs⟩) r =
        .ok ⟨flatOfChildren rchildren ++
              [(beaconKeyOf r, ⟨some ⟨[(r.ant_id, r.dbm_ant)], some 1⟩⟩)],
            outs⟩ := by
      simp [processJsonRecord, flatStateOf, HBeaconTree.children, hflat,
        persistAntennaIdAndDbmValueInHdf5, hdf5CreateDataset, alookup]
    refine ⟨?_, ?_, ?_⟩
    · intro s2 h
      rw [hH] at h
      cases h
      rw [hF]
      simp [flatStateOf, flatOfChildren, HBeaconTree.children,
        HBeaconTree.antennaIdDbmMap]
    · intro s2 h
      rw [hH] at h
      exact StepResultH.noConfusion h
    · intro h
      rw [hH] at h
      exact StepResultH.noConfusion h

/-- A path-aware run over readings with slash-free keys simulates the flat
run: same outcome, same warning flag, corresponding states. -/
theorem runRecordsFromH_sim (cfg : Config) :
    ∀ (rs : List JSONDocumentModel) (s : HEngineState) (w : Bool),
      (∀ r ∈ rs, splitPath (beaconKeyOf r) = [beaconKeyOf r]) →
      (∀ s2 w2, runRecordsFromH cfg s w rs = .ok s2 w2 →
        runRecordsFrom cfg (flatStateOf s) w rs = .ok (flatStateOf s2) w2) ∧
      (∀ w2, runRecordsFromH cfg s w rs = .failed w2 →
        runRecordsFrom cfg (flatStateOf s) w rs = .failed w2) := by
  intro rs
  induction rs with
  | nil =>
    intro s w _
    constructor
    · intro s2 w2 h
      rw [runRecordsFromH] at h
      cases h
      rfl
    · intro w2 h
      rw [runRecordsFromH] at h
      exact RunResultH.noConfusion h
  | cons r rest ih =>
    intro s w hks
    have hsim := processJsonRecordH_single_sim cfg s r (hks r (List.mem_cons_self _ _))
    have hksr : ∀ r2 ∈ rest, splitPath (beaconKeyOf r2) = [beaconKeyOf r2] :=
      fun r2 hr2 => hks r2 (List.mem_cons_of_mem _ hr2)
    constructor
    · intro s2 w2 h
      rw [runRecordsFromH] at h
      rw [runRecordsFrom]
      cases hstep : processJsonRecordH cfg s r with
      | ok s1 =>
        rw [hstep] at h
        rw [hsim.1 s1 hstep]
        exact (ih s1 w hksr).1 s2 w2 h
      | warned s1 =>
        rw [hstep] at h
        rw [hsim.2.1 s1 hstep]
        exact (ih s1 true hksr).1 s2 w2 h
      | failed =>
        rw [hstep] at h
        exact RunResultH.noConfusion h
    · intro w2 h
      rw [runRecordsFromH] at h
      rw [runRecordsFrom]
      cases hstep : processJsonRecordH cfg s r with
      | ok s1 =>
        rw [hstep] at h
        rw [hsim.1 s1 hstep]
        exact (ih s1 w hksr).2 w2 h
      | warned s1 =>
        rw [hstep] at h
        rw [hsim.2.1 s1 hstep]
        exact (ih s1 true hksr).2 w2 h
      | failed =>
        rw [hstep] at h
        cases h
        rw [hsim.2.2 hstep]

/-- The residual-flush iteration over the path-aware store coincides with
the flat iteration over the flat view of the direct children. -/
theorem persistBeaconsVectorsAuxH_eq (cfg : Config) :
    ∀ cs : List (String × HBeaconTree),
      persistBeaconsVectorsAuxH cfg cs =
        persistBeaconsVectorsAux cfg (flatOfChildren cs) := by
  intro cs
  induction cs with
  | nil => rfl
  | cons p rest ih =>
    obtain ⟨k1, t1⟩ := p
    cases hsub : t1.antennaIdDbmMap with
    | none =>
      simp [persistBeaconsVectorsAuxH, persistBeaconsVectorsAux, flatOfChildren,
        hsub, ih]
    | some g =>
      simp [persistBeaconsVectorsAuxH, persistBeaconsVectorsAux, flatOfChildren,
        hsub, ih]


/-- C10: a group key containing `/` is a multi-component HDF5 path, so
`create_group` creates an intermediate beacon group that lacks the
`antenna_id_dbm_map` sub-group, and both warning branches fire.  With
expected ids `[201, 202]`, a reading with timestamp `x/y` nests the group
`y` (holding the sub-group) under the intermediate group `1, x`; a second
reading with timestamp `x` then resolves to that intermediate group and
takes the per-reading warning branch
(`hdf5_storage.py` lines 417-422), and the residual flush, iterating only
the direct children of `beacons`, takes its warning branch on the same
intermediate group (lines 482-487) and emits nothing. -/
theorem c10_counterexample :
    runRecordsFromH ⟨[201, 202], -135⟩ initialHEngineState false
        [⟨1, 201, 5, "x/y"⟩, ⟨1, 202, 6, "x"⟩] =
      .ok ⟨.node none [("1, x", .node none
            [("y", .node (some ⟨[(201, 5)], some 1⟩) [])])], []⟩ true ∧
    warnedAfterFlushH ⟨[201, 202], -135⟩
        (runRecordsFromH ⟨[201, 202], -135⟩ initialHEngineState false
          [⟨1, 201, 5, "x/y"⟩, ⟨1, 202, 6, "x"⟩]) = true ∧
    (persistBeaconsVectorsToResultsFileH ⟨[201, 202], -135⟩
        ⟨.node none [("1, x", .node none
            [("y", .node (some ⟨[(201, 5)], some 1⟩) [])])], []⟩).1.outputs = [] := by
  refine ⟨rfl, rfl, rfl⟩

/-- C10 (amended): for record sequences whose derived group keys contain
no `/` (each key is then a single HDF5 path component), starting from the
empty store every beacon group ever present has its `antenna_id_dbm_map`
sub-group, created together with the group on the first reading for its
key, so neither the per-reading warning branch nor the residual-flush
warning branch is ever taken. -/
theorem c10_slash_free_warning_branches_unreachable (cfg : Config)
    (rs : List JSONDocumentModel)
    (hns : ∀ r ∈ rs, '/' ∉ (beaconKeyOf r).toList) :
    warnedAfterFlushH cfg (runRecordsFromH cfg initialHEngineState false rs) =
      false := by
  have hks : ∀ r ∈ rs, splitPath (beaconKeyOf r) = [beaconKeyOf r] :=
    fun r hr => splitPath_no_slash (hns r hr)
  have hflat := flatRun_warning_branches_unreachable cfg rs
  cases hres : runRecordsFromH cfg initialHEngineState false rs with
  | ok s2 w2 =>
    have hfr := (runRecordsFromH_sim cfg rs initialHEngineState false hks).1 s2 w2 hres
    rw [show flatStateOf initialHEngineState = initialEngineState from rfl] at hfr
    rw [hfr] at hflat
    have hfl : (persistBeaconsVectorsToResultsFileH cfg s2).2 =
        (persistBeaconsVectorsToResultsFile cfg (flatStateOf s2)).2 := by
      simp [persistBeaconsVectorsToResultsFileH, persistBeaconsVectorsToResultsFile,
        flatStateOf, persistBeaconsVectorsAuxH_eq]
    simp only [warnedAfterFlushH, hfl]
    simpa only [warnedAfterFlush] using hflat
  | failed w2 =>
    have hfr := (runRecordsFromH_sim cfg rs initialHEngineState false hks).2 w2 hres
    rw [show flatStateOf initialHEngineState = initialEngineState from rfl] at hfr
    rw [hfr] at hflat
    simpa only [warnedAfterFlush, warnedAfterFlushH] using hflat

/-- A slash-free single-reading run for which the amended C10 theorem
reports that no warning fired. -/
theorem c10_slash_free_warning_branches_unreachable_witness :
    warnedAfterFlushH ⟨[201, 202], -135⟩
      (runRecordsFromH ⟨[201, 202], -135⟩ initialHEngineState false
        [⟨1, 201, 5, "T"⟩]) = false :=
  c10_slash_free_warning_branches_unreachable ⟨[201, 202], -135⟩
    [⟨1, 201, 5, "T"⟩] (by decide)

/-- C4 (amended): over the path-aware store, for inputs whose derived
group keys contain no `/`, in which no key occurs more often than the
expected-set size (so no readings arrive for a key after its group
completed), and on which the run does not abort, the records emitted after
the residual flush carry pairwise distinct beacon keys, exactly the
distinct group keys observed in the input, and their number equals the
number of distinct observed keys. -/
theorem c4_slash_free_emissions_eq_distinct_keys (cfg : Config)
    (rs : List JSONDocumentModel) (s : HEngineState) (w : Bool)
    (hns : ∀ r ∈ rs, '/' ∉ (beaconKeyOf r).toList)
    (hocc : ∀ k, keyCount rs k ≤ cfg.expectedAntennaIds.length)
    (hrun : runRecordsFromH cfg initialHEngineState false rs = .ok s w) :
    ((persistBeaconsVectorsToResultsFileH cfg s).1.outputs.map
        OutputRecord.beacon).Nodup ∧
    (∀ k, k ∈ (persistBeaconsVectorsToResultsFileH cfg s).1.outputs.map
        OutputRecord.beacon ↔ k ∈ rs.map beaconKeyOf) ∧
    (persistBeaconsVectorsToResultsFileH cfg s).1.outputs.length =
      (rs.map beaconKeyOf).dedup.length := by
  have hks : ∀ r ∈ rs, splitPath (beaconKeyOf r) = [beaconKeyOf r] :=
    fun r hr => splitPath_no_slash (hns r hr)
  have hfr := (runRecordsFromH_sim cfg rs initialHEngineState false hks).1 s w hrun
  rw [show flatStateOf initialHEngineState = initialEngineState from rfl] at hfr
  have hflat := flatRun_emissions_eq_distinct_keys cfg rs (flatStateOf s) w hocc hfr
  have hout : (persistBeaconsVectorsToResultsFileH cfg s).1.outputs =
      (persistBeaconsVectorsToResultsFile cfg (flatStateOf s)).1.outputs := by
    simp [persistBeaconsVectorsToResultsFileH, persistBeaconsVectorsToResultsFile,
      flatStateOf, persistBeaconsVectorsAuxH_eq]
  rw [hout]
  exact hflat

/-- A slash-free two-reading run completing the key `1, T` for which the
amended C4 theorem reports one emission for the one observed key. -/
theorem c4_slash_free_emissions_eq_distinct_keys_witness :
    ((persistBeaconsVectorsToResultsFileH ⟨[201, 202], -135⟩
        ⟨.node none [], [⟨"1, T", [5, 6]⟩]⟩).1.outputs.map
          OutputRecord.beacon).Nodup ∧
    ("1, T" ∈ (persistBeaconsVectorsToResultsFileH ⟨[201, 202], -135⟩
        ⟨.node none [], [⟨"1, T", [5, 6]⟩]⟩).1.outputs.map OutputRecord.beacon ↔
      "1, T" ∈ ([⟨1, 201, 5, "T"⟩, ⟨1, 202, 6, "T"⟩] :
        List JSONDocumentModel).map beaconKeyOf) ∧
    (persistBeaconsVectorsToResultsFileH ⟨[201, 202], -135⟩
        ⟨.node none [], [⟨"1, T", [5, 6]⟩]⟩).1.outputs.length =
      (([⟨1, 201, 5, "T"⟩, ⟨1, 202, 6, "T"⟩] :
        List JSONDocumentModel).map beaconKeyOf).dedup.length := by
  have h := c4_slash_free_emissions_eq_distinct_keys ⟨[201, 202], -135⟩
    [⟨1, 201, 5, "T"⟩, ⟨1, 202, 6, "T"⟩]
    ⟨.node none [], [⟨"1, T", [5, 6]⟩]⟩ false
    (by decide)
    (fun k => le_trans (keyCount_le_length _ k) (by decide))
    rfl
  exact ⟨h.1, h.2.1 "1, T", h.2.2⟩

end BeaconVectorFile


